import Mathlib

/-!
Verification of the LOD quadtree subsystem of the geo-three-ext repository.

The definitions below are a shallow embedding of the JavaScript classes
`LODRaycast`, `MapView`, `MapNode`, `MapPlaneNode` and `MapHeightNode`
found in `src/docs/storage-utils.mjs` (with the variants from
`src/docs/core.mjs` and `src/docs/geo-three.ext.js` embedded separately
where the implementations differ).  Asynchronous tile fetches are modelled
as pending-completion counters: issuing `loadTexture()` increments a
node's `pendingTex` counter and the event-loop delivery of the resolved
promise is a separate `completion` operation.
-/

namespace GeoThree

/-! ## LOD controller (`LODRaycast`, storage-utils.mjs lines 579-636)

A ray/mesh intersection hit.  `score` stands for the value of
`this.calculateDistance(node, intersect.distance)`: `calculateDistance`
itself mixes `Math.pow` and `sqrt` over floats, so the score is carried
as an abstract rational input; `updateLOD`'s control flow only compares
it against the two thresholds.  `hasParent` is `node.parentNode !== null`.
-/

structure Hit where
  id : Nat
  score : ℚ
  hasParent : Bool
deriving Repr, DecidableEq

inductive LodAction where
  | subdivideNode (id : Nat)
  | simplifyParentOf (id : Nat)
deriving Repr, DecidableEq

/-- The structural decision taken by `LODRaycast.updateLOD`
(storage-utils.mjs lines 596-612): walk the candidate hits in order;
on the first hit with `distance > thresholdUp` call `subdivide()` on the
hit node and return; otherwise on the first hit with
`distance < thresholdDown && node.parentNode` call `simplify()` on its
parent and return; if the loop ends, no structural call is made. -/
def updateLODAction (up down : ℚ) : List Hit → Option LodAction
  | [] => none
  | h :: rest =>
    if up < h.score then some (.subdivideNode h.id)
    else if h.score < down ∧ h.hasParent = true then some (.simplifyParentOf h.id)
    else updateLODAction up down rest

/-- A hit on which `updateLOD` acts: score strictly above `thresholdUp`,
or strictly below `thresholdDown` on a node that has a parent. -/
def actionable (up down : ℚ) (h : Hit) : Prop :=
  up < h.score ∨ (h.score < down ∧ h.hasParent = true)

instance (up down : ℚ) (h : Hit) : Decidable (actionable up down h) := by
  unfold actionable; infer_instance

/-- `LODRaycast.gatherIntersections` (storage-utils.mjs lines 614-625):
for `t = 0 .. n-1` cast ray `t` and `intersects.push(...hits)`, so the
result is the accumulated concatenation of every ray's hits. -/
def gatherIntersections (n : Nat) (rayHits : Nat → List Hit) : List Hit :=
  (List.range n).foldl (fun acc t => acc ++ rayHits t) []

/-- The gathering loop of `LODRaycast.updateLOD` in
`src/docs/geo-three.ext.js` (lines 300-312): each iteration executes
`intersects = this.raycaster.intersectObjects(view.children, true)`,
overwriting the previous iteration's hits instead of appending them. -/
def updateLODGatherExt (n : Nat) (rayHits : Nat → List Hit) : List Hit :=
  (List.range n).foldl (fun _ t => rayHits t) []

/-! ## The quadtree node model (`MapNode` hierarchy, storage-utils.mjs lines 796-1001)

`NRec` carries the per-node fields of `MapNode` (and the
`textureLoaded`/`heightLoaded` flags that `MapHeightNode` adds).
`kind = false` is a `MapPlaneNode`, `kind = true` a `MapHeightNode`.
`location` is the quadrant constant (`ROOT = -1`, `TOP_LEFT = 0`,
`TOP_RIGHT = 1`, `BOTTOM_LEFT = 2`, `BOTTOM_RIGHT = 3`).
`pendingTex`/`pendingHeight` count in-flight `fetchTile` promises issued
by `loadTexture`/`loadHeightGeometry`; `fetchedTex`/`fetchedHeight`
count every fetch ever issued by the node. -/

structure NRec where
  kind : Bool
  location : Int
  level : Nat
  x : Nat
  y : Nat
  nodesLoaded : Nat
  subdivided : Bool
  isMesh : Bool
  visible : Bool
  posY : ℚ
  textureLoaded : Bool
  heightLoaded : Bool
  pendingTex : Nat
  pendingHeight : Nat
  fetchedTex : Nat
  fetchedHeight : Nat
deriving Repr, DecidableEq

/-- A node together with its scene-graph `children` and its
`childrenCache` (`none` models the JavaScript `null`).  Parent links are
positional: an operation addressed to a child is dispatched through its
parent, which is how `nodeReady` reaches `this.parentNode`. -/
inductive NTree where
  | node (top : NRec) (kids : List NTree) (cache : Option (List NTree))
deriving Repr

def NTree.top : NTree → NRec
  | .node r _ _ => r

def NTree.kids : NTree → List NTree
  | .node _ cs _ => cs

def NTree.cacheOf : NTree → Option (List NTree)
  | .node _ _ q => q

/-- The `MapNode`/`MapPlaneNode`/`MapHeightNode` constructor chain plus
`initialize()`: fields start as in the constructors
(`nodesLoaded = 0`, `subdivided = false`, `childrenCache = null`,
`isMesh = true`, `visible = false`), and `initialize` immediately calls
`loadTexture()` (one pending texture fetch) and, for a `MapHeightNode`
whose map view has a height provider, `loadHeightGeometry()` (one
pending height fetch).  `hp` says whether `mapView.heightProvider` is
set. -/
def mkNodeRec (kind : Bool) (hp : Bool) (location : Int) (level x y : Nat) : NRec :=
  { kind := kind
    location := location
    level := level
    x := x
    y := y
    nodesLoaded := 0
    subdivided := false
    isMesh := true
    visible := false
    posY := 0
    textureLoaded := false
    heightLoaded := false
    pendingTex := 1
    pendingHeight := if kind && hp then 1 else 0
    fetchedTex := 1
    fetchedHeight := if kind && hp then 1 else 0 }

/-- `MapPlaneNode.createChildNodes` (storage-utils.mjs lines 917-938;
`MapHeightNode.createChildNodes`, lines 980-1001, is identical except
that it instantiates `MapHeightNode`s, i.e. the children inherit the
parent's `kind`): set `this.position.y = -0.1`, then create the four
children TOP_LEFT `(level+1, 2x, 2y)`, TOP_RIGHT `(level+1, 2x+1, 2y)`,
BOTTOM_LEFT `(level+1, 2x, 2y+1)`, BOTTOM_RIGHT `(level+1, 2x+1, 2y+1)`
in that order, each of which fetches on creation. -/
def createChildNodes (hp : Bool) (r : NRec) : List NTree :=
  [ .node (mkNodeRec r.kind hp 0 (r.level + 1) (r.x * 2) (r.y * 2)) [] none
  , .node (mkNodeRec r.kind hp 1 (r.level + 1) (r.x * 2 + 1) (r.y * 2)) [] none
  , .node (mkNodeRec r.kind hp 2 (r.level + 1) (r.x * 2) (r.y * 2 + 1)) [] none
  , .node (mkNodeRec r.kind hp 3 (r.level + 1) (r.x * 2 + 1) (r.y * 2 + 1)) [] none ]

/-- `MapNode.subdivide` (storage-utils.mjs lines 824-834) acting on one
node.  `gateOK` stands for `!(this.parentNode && this.parentNode.nodesLoaded
< MapNode.CHILDRENS)`; the path-directed `subdivideAt` below supplies it
from the actual parent.  On the cache path the source executes
`this.children = this.childrenCache`, leaving `childrenCache` aliased to
`children`; the model moves the list and sets the cache to `none`, which
is observationally equal because every later read of `childrenCache`
is preceded by `simplify` reassigning it from `children` or by
`MapView.clear` nulling it. -/
def subdivideLocal (mz : Nat) (hp : Bool) (gateOK : Bool) : NTree → NTree
  | .node r cs cache =>
    if 0 < cs.length ∨ mz < r.level + 1 ∨ gateOK = false then .node r cs cache
    else
      let r1 := { r with subdivided := true }
      match cache with
      | some l => .node { r1 with isMesh := false } l none
      | none => .node { r1 with posY := -(1/10) } (createChildNodes hp r1) none

/-- `MapNode.simplify` (storage-utils.mjs lines 836-847): cache the
children when non-empty, clear `subdivided`, restore `isMesh`, empty
`children`, reset `nodesLoaded` to 0, restore `visible` and
`position.y = 0`. -/
def simplifyLocal : NTree → NTree
  | .node r cs cache =>
    .node { r with subdivided := false, isMesh := true, nodesLoaded := 0
                 , visible := true, posY := 0 }
          []
          (if 0 < cs.length then some cs else cache)

/-- The tail of `MapNode.loadTexture` / `MapHeightNode.loadTexture`
running when one pending texture fetch resolves: returns the updated
record and whether `nodeReady()` is invoked.  A plane node always calls
`nodeReady`; a height node sets `textureLoaded = true` and calls
`nodeReady` only `if (this.heightLoaded || !this.mapView.heightProvider)`.
With no pending fetch there is no event to deliver. -/
def texComplete (hp : Bool) (r : NRec) : NRec × Bool :=
  if r.pendingTex = 0 then (r, false)
  else
    if r.kind then
      ({ r with pendingTex := r.pendingTex - 1, textureLoaded := true },
       r.heightLoaded || !hp)
    else
      ({ r with pendingTex := r.pendingTex - 1 }, true)

/-- The tail of `MapHeightNode.loadHeightGeometry` when one pending
height fetch resolves: rebuilds the geometry, sets
`heightLoaded = true`, and calls `nodeReady()` `if (this.textureLoaded)`. -/
def heightComplete (r : NRec) : NRec × Bool :=
  if r.pendingHeight = 0 then (r, false)
  else
    ({ r with pendingHeight := r.pendingHeight - 1, heightLoaded := true },
     r.textureLoaded)

/-- Set `child.visible = true` on a direct child (the body of the
`forEach` in `nodeReady`). -/
def setVisibleTop : NTree → NTree
  | .node r cs cache => .node { r with visible := true } cs cache

/-- The effect of a child's `nodeReady()` on the parent
(storage-utils.mjs lines 861-879): `this.parentNode.nodesLoaded++`; once
it reaches `MapNode.CHILDRENS` every entry of `parentNode.children` is
made visible, and if the parent is marked `subdivided` its own mesh is
hidden. -/
def readyParent (r : NRec) (cs : List NTree) : NRec × List NTree :=
  let r1 := { r with nodesLoaded := r.nodesLoaded + 1 }
  if 4 ≤ r1.nodesLoaded then
    (if r1.subdivided then { r1 with isMesh := false } else r1, cs.map setVisibleTop)
  else (r1, cs)

/-- One step of a completion path: `live k` addresses the k-th entry of
`children`, `cached k` the k-th entry of `childrenCache` (a simplified
node's pending fetches still resolve and still call `nodeReady` on the
parent that cached it). -/
inductive CStep where
  | live (k : Nat)
  | cached (k : Nat)
deriving Repr, DecidableEq

/-- Replace the k-th entry of a list. -/
def modN (f : α → α) : Nat → List α → List α
  | _, [] => []
  | 0, a :: as => f a :: as
  | n + 1, a :: as => a :: modN f n as

/-- Delivery of one resolved fetch to the node at a path.  `f` is the
completion action on the node's record (`texComplete hp` or
`heightComplete`), returning whether `nodeReady()` fires.  At the root
(`path = []`) a firing `nodeReady` takes the parentless branch and sets
`this.visible = true`; at `path = [s]` the enclosing node is
`this.parentNode` and receives the `readyParent` effect. -/
def completeAt (f : NRec → NRec × Bool) : NTree → List CStep → NTree
  | t, [] =>
    match t with
    | .node r cs cache =>
      let p := f r
      if p.2 then .node { p.1 with visible := true } cs cache
      else .node p.1 cs cache
  | .node r cs cache, .live k :: [] =>
    (match cs[k]? with
     | none => .node r cs cache
     | some (.node cr ccs ccache) =>
       let p := f cr
       let cs1 := modN (fun _ => .node p.1 ccs ccache) k cs
       if p.2 then
         let q := readyParent r cs1
         .node q.1 q.2 cache
       else .node r cs1 cache)
  | .node r cs cache, .cached k :: [] =>
    (match cache with
     | none => .node r cs none
     | some l =>
       match l[k]? with
       | none => .node r cs (some l)
       | some (.node cr ccs ccache) =>
         let p := f cr
         let l1 := modN (fun _ => .node p.1 ccs ccache) k l
         if p.2 then
           let q := readyParent r cs
           .node q.1 q.2 (some l1)
         else .node r cs (some l1))
  | .node r cs cache, .live k :: s :: π =>
    .node r (modN (fun c => completeAt f c (s :: π)) k cs) cache
  | .node r cs cache, .cached k :: s :: π =>
    .node r cs (cache.map (modN (fun c => completeAt f c (s :: π)) k))

/-- `subdivide()` invoked on the node at a (live) path.  At the root the
node has no parent, so the parent gate passes; one level above the
target the gate `this.parentNode.nodesLoaded >= MapNode.CHILDRENS` is
evaluated on the enclosing node. -/
def subdivideAt (mz : Nat) (hp : Bool) : NTree → List Nat → NTree
  | t, [] => subdivideLocal mz hp true t
  | .node r cs cache, k :: [] =>
    .node r (modN (subdivideLocal mz hp (decide (4 ≤ r.nodesLoaded))) k cs) cache
  | .node r cs cache, k :: j :: π =>
    .node r (modN (fun c => subdivideAt mz hp c (j :: π)) k cs) cache

/-- `simplify()` invoked on the node at a (live) path. -/
def simplifyAt : NTree → List Nat → NTree
  | t, [] => simplifyLocal t
  | .node r cs cache, k :: π =>
    .node r (modN (fun c => simplifyAt c π) k cs) cache

/-- The per-node body of `MapView.clear` (storage-utils.mjs lines
686-692) on a visited node: drop `childrenCache` and call
`loadTexture()` again (one more pending and one more issued texture
fetch).  `loadHeightGeometry` is not called. -/
def clearRec (r : NRec) : NRec :=
  { r with pendingTex := r.pendingTex + 1, fetchedTex := r.fetchedTex + 1 }

mutual
/-- `MapView.clear`: `this.traverse(...)` visits the view's live
scene-graph descendants (`children`, recursively) — nodes held only in
a `childrenCache` are not part of the scene graph, so they are not
visited; the visited nodes' caches are nulled, discarding them. -/
def clearT : NTree → NTree
  | .node r cs _ => .node (clearRec r) (clearForest cs) none

def clearForest : List NTree → List NTree
  | [] => []
  | c :: cs => clearT c :: clearForest cs
end

/-- The `MapView` state: the identity of the tile provider and height
provider (JavaScript compares providers by reference, modelled by
numeric identities), the provider's `maxZoom`, and the root node. -/
structure ViewSt where
  providerId : Nat
  heightProviderId : Option Nat
  maxZoom : Nat
  root : NTree
deriving Repr

def ViewSt.hp (v : ViewSt) : Bool := v.heightProviderId.isSome

/-- `MapView` constructor (storage-utils.mjs lines 644-670): `setRoot`
creates a single root node (a `MapHeightNode` in HEIGHT mode, else a
`MapPlaneNode`) at the view's `rootLocation` (default
`{level 7, x 20, y 49}`), with `parentNode = null`. -/
def mkMapView (heightMode : Bool) (providerId : Nat) (heightProviderId : Option Nat)
    (maxZoom : Nat) (level x y : Nat) : ViewSt :=
  { providerId := providerId
    heightProviderId := heightProviderId
    maxZoom := maxZoom
    root := .node (mkNodeRec heightMode heightProviderId.isSome (-1) level x y) [] none }

/-- `MapView.setProvider` (storage-utils.mjs lines 672-677): replace the
provider and `clear()` the tree only when the new provider is not
reference-equal to the current one. -/
def setProvider (v : ViewSt) (p : Nat) : ViewSt :=
  if p = v.providerId then v
  else { v with providerId := p, root := clearT v.root }

/-- `MapView.setHeightProvider` (storage-utils.mjs lines 679-684). -/
def setHeightProvider (v : ViewSt) (p : Option Nat) : ViewSt :=
  if p = v.heightProviderId then v
  else { v with heightProviderId := p, root := clearT v.root }

/-- The swap-free operations on a view: LOD-triggered `subdivide` and
`simplify` at a live node, and event-loop delivery of a resolved texture
or height fetch at a live or cached node. -/
inductive Op where
  | subdivOp (π : List Nat)
  | simplifyOp (π : List Nat)
  | texOp (π : List CStep)
  | heightOp (π : List CStep)
deriving Repr, DecidableEq

def applyOp (v : ViewSt) : Op → ViewSt
  | .subdivOp π => { v with root := subdivideAt v.maxZoom v.hp v.root π }
  | .simplifyOp π => { v with root := simplifyAt v.root π }
  | .texOp π => { v with root := completeAt (texComplete v.hp) v.root π }
  | .heightOp π => { v with root := completeAt heightComplete v.root π }

def runOps (v : ViewSt) (ops : List Op) : ViewSt :=
  ops.foldl applyOp v

/-- Look up the node at a path (through live children and caches). -/
def getAtC : NTree → List CStep → Option NTree
  | t, [] => some t
  | .node _ cs _, .live k :: π =>
    match cs[k]? with
    | some c => getAtC c π
    | none => none
  | .node _ _ cache, .cached k :: π =>
    match cache with
    | some l =>
      match l[k]? with
      | some c => getAtC c π
      | none => none
    | none => none

def livePath (π : List Nat) : List CStep := π.map CStep.live

mutual
/-- Total number of texture fetches ever issued by the nodes of a tree
(live and cached). -/
def totFetchTexT : NTree → Nat
  | .node r cs none => r.fetchedTex + totFetchTexF cs
  | .node r cs (some l) => r.fetchedTex + totFetchTexF cs + totFetchTexF l

def totFetchTexF : List NTree → Nat
  | [] => 0
  | c :: cs => totFetchTexT c + totFetchTexF cs
end

mutual
/-- Number of node objects in a tree (live and cached). -/
def countNodesT : NTree → Nat
  | .node _ cs none => 1 + countNodesF cs
  | .node _ cs (some l) => 1 + countNodesF cs + countNodesF l

def countNodesF : List NTree → Nat
  | [] => 0
  | c :: cs => countNodesT c + countNodesF cs
end

/-- Deliver the texture completions of the children listed in `ks`, in
that order. -/
def runTexLive (hp : Bool) (t : NTree) (ks : List Nat) : NTree :=
  ks.foldl (fun t k => completeAt (texComplete hp) t [.live k]) t

/-- A freshly created child of the subdivision scenario with its texture
fetch either still pending (`done = false`) or already delivered. -/
def c2Child (kind hp : Bool) (loc : Int) (lv xx yy : Nat) (done : Bool) : NTree :=
  .node { mkNodeRec kind hp loc lv xx yy with pendingTex := if done then 0 else 1 } [] none

/-- The state of a plane parent `r` after a fresh `subdivide()` followed
by delivery of the texture loads of the children whose indices are in
`S` (at most three of them): the parent counts `S.length` loaded
children, every child is still invisible, and the parent still renders
its own mesh. -/
def c2State (hp : Bool) (r : NRec) (S : List Nat) : NTree :=
  .node { r with subdivided := true, posY := -(1/10), nodesLoaded := S.length }
    [ c2Child r.kind hp 0 (r.level + 1) (r.x * 2) (r.y * 2) (decide (0 ∈ S))
    , c2Child r.kind hp 1 (r.level + 1) (r.x * 2 + 1) (r.y * 2) (decide (1 ∈ S))
    , c2Child r.kind hp 2 (r.level + 1) (r.x * 2) (r.y * 2 + 1) (decide (2 ∈ S))
    , c2Child r.kind hp 3 (r.level + 1) (r.x * 2 + 1) (r.y * 2 + 1) (decide (3 ∈ S)) ]
    none

/-! ## Invariant for the loaded-child counter

`cap` bounds the number of `nodeReady()` calls a node can still make on
its parent: a plane node (or a height node without a height provider)
fires once per pending texture fetch; a height node with a height
provider fires exactly once more as long as one of its two fetches is
outstanding. -/

def cap (hp : Bool) (r : NRec) : Nat :=
  if r.kind && hp then (if r.pendingTex + r.pendingHeight = 0 then 0 else 1)
  else r.pendingTex

def debtL (hp : Bool) (cs : List NTree) : Nat :=
  (cs.map (fun c => cap hp c.top)).sum

/-- Record-local well-formedness in a swap-free run: at most one fetch
of each kind is in flight, the `textureLoaded`/`heightLoaded` flags
agree with the pending counters on a height node with a height
provider, and no height fetch is ever pending otherwise. -/
def recLocalOK (hp : Bool) (r : NRec) : Prop :=
  r.pendingTex ≤ 1 ∧
  r.pendingHeight ≤ 1 ∧
  ((r.kind && hp) = true →
    ((r.textureLoaded = true ↔ r.pendingTex = 0) ∧
     (r.heightLoaded = true ↔ r.pendingHeight = 0))) ∧
  ((r.kind && hp) = false → r.pendingHeight = 0)

/-- Well-formedness of one node relative to its children and cache: the
loaded-child counter plus the outstanding `nodeReady` capacity of the
current and cached children never exceeds 4, a node with neither
children nor a cache has a zero counter, and a cache is never an empty
list. -/
def recOK (hp : Bool) (r : NRec) (cs : List NTree) (cache : Option (List NTree)) : Prop :=
  recLocalOK hp r ∧
  r.nodesLoaded + (debtL hp cs + debtL hp (cache.getD [])) ≤ 4 ∧
  (cs = [] ∧ cache = none → r.nodesLoaded = 0) ∧
  (∀ l, cache = some l → l ≠ [])

mutual
def treeOK (hp : Bool) : NTree → Prop
  | .node r cs none => recOK hp r cs none ∧ forestOK hp cs
  | .node r cs (some l) => recOK hp r cs (some l) ∧ forestOK hp cs ∧ forestOK hp l

def forestOK (hp : Bool) : List NTree → Prop
  | [] => True
  | c :: cs => treeOK hp c ∧ forestOK hp cs
end

/-- What a completion action on one record must satisfy for the
loaded-child invariant to be preserved: local well-formedness is
preserved, the record's own counter is untouched, and the outstanding
`nodeReady` capacity drops by exactly one when the action fires
`nodeReady` and is unchanged when it does not. -/
def fSpec (hp : Bool) (f : NRec → NRec × Bool) : Prop :=
  ∀ r, recLocalOK hp r →
    recLocalOK hp (f r).1 ∧
    (f r).1.nodesLoaded = r.nodesLoaded ∧
    ((f r).2 = true → cap hp r = cap hp (f r).1 + 1) ∧
    ((f r).2 = false → cap hp (f r).1 = cap hp r)

/-! ## Concrete instances used by witnesses and counterexamples -/

def exHitQuiet : Hit := { id := 1, score := 3/10, hasParent := true }
def exHitHot : Hit := { id := 2, score := 13/20, hasParent := true }

/-- Two rays, as with the default `subdivisionRays = 2`: the first ray
hits one mesh, the second ray hits nothing. -/
def exRays : Nat → List Hit := fun t => if t = 0 then [exHitHot] else []

/-- A planar map view at the default root location `{7, 20, 49}` with
provider 1 (`maxZoom = 19`). -/
def exViewPlanar : ViewSt := mkMapView false 1 none 19 7 20 49

/-- A HEIGHT-mode map view with image provider 1 and height provider 5. -/
def exViewHeight : ViewSt := mkMapView true 1 (some 5) 19 7 20 49

/-- Root subdivided and all four child textures delivered. -/
def exLoadedView : ViewSt :=
  runOps exViewPlanar
    [.subdivOp [], .texOp [.live 0], .texOp [.live 1], .texOp [.live 2], .texOp [.live 3]]

/-- The provider-swap trace of the C9 counterexample: after the four
children have loaded, `setProvider` re-triggers `loadTexture` on every
live node, and the first re-delivered child texture pushes the root's
`nodesLoaded` to 5. -/
def exOverloadedView : ViewSt :=
  applyOp (setProvider exLoadedView 2) (.texOp [.live 0])

/-! ## The `simplify` variants of the other two implementations -/

/-- The fields of `MapNode` in `src/docs/core.mjs` touched by its
`simplify` (lines 185-197); `opacity`/`transparent` render the
`this.material` resets. -/
structure CoreRec where
  nodesLoaded : Nat
  subdivided : Bool
  isMesh : Bool
  childrenLen : Nat
  cacheSet : Bool
  opacity : ℚ
  transparent : Bool
  posY : ℚ
deriving Repr, DecidableEq

/-- `MapNode.simplify` from `src/docs/core.mjs` (lines 185-197): caches
the children, clears `subdivided`, restores `isMesh`, empties
`children`, resets the material and `position.y` — but never touches
`nodesLoaded`. -/
def simplifyCore (r : CoreRec) : CoreRec :=
  { r with cacheSet := if r.childrenLen > 0 then true else r.cacheSet
         , subdivided := false
         , isMesh := true
         , childrenLen := 0
         , opacity := 1
         , transparent := false
         , posY := 0 }

/-- The fields of `MapNode` in `src/docs/geo-three.ext.js` touched by
its `simplify` (lines 153-160). -/
structure ExtRec where
  nodesLoaded : Nat
  subdivided : Bool
  isMesh : Bool
  childrenLen : Nat
  cacheSet : Bool
  posY : ℚ
deriving Repr, DecidableEq

/-- `MapNode.simplify` from `src/docs/geo-three.ext.js` (lines 153-160):
caches the children, clears `subdivided`, restores `isMesh` and empties
`children`; neither `nodesLoaded` nor the transform is touched. -/
def simplifyExt (r : ExtRec) : ExtRec :=
  { r with cacheSet := if r.childrenLen > 0 then true else r.cacheSet
         , subdivided := false
         , isMesh := true
         , childrenLen := 0 }

def exCoreRec : CoreRec :=
  { nodesLoaded := 3, subdivided := true, isMesh := false, childrenLen := 4
  , cacheSet := false, opacity := 0, transparent := true, posY := -(1/10) }

def exExtRec : ExtRec :=
  { nodesLoaded := 3, subdivided := true, isMesh := false, childrenLen := 4
  , cacheSet := false, posY := -(1/10) }

/-- A root plane node with one child, used to instantiate theorems with
hypotheses. -/
def exSimpleParent : NTree :=
  .node (mkNodeRec false false (-1) 7 20 49)
    [.node (mkNodeRec false false 0 8 40 98) [] none] none

/-! # Theorems -/

/-! ## Generic lemmas about the path combinators -/

theorem modN_get_self (f : α → α) (k : Nat) (l : List α) :
    (modN f k l)[k]? = (l[k]?).map f := by
  induction l generalizing k with
  | nil => cases k <;> simp [modN]
  | cons a as ih =>
    cases k with
    | zero => simp [modN]
    | succ n => simpa [modN] using ih n

theorem modN_get_ne (f : α → α) (k j : Nat) (l : List α) (h : j ≠ k) :
    (modN f k l)[j]? = l[j]? := by
  induction l generalizing k j with
  | nil => cases k <;> simp [modN]
  | cons a as ih =>
    cases k with
    | zero => cases j with
      | zero => exact absurd rfl h
      | succ j => simp [modN]
    | succ k => cases j with
      | zero => simp [modN]
      | succ j => simpa [modN] using ih k j (fun hj => h (congrArg Nat.succ hj))

theorem modN_eq_self (f : α → α) (k : Nat) (l : List α) (h : ∀ a, f a = a) :
    modN f k l = l := by
  induction l generalizing k with
  | nil => simp [modN]
  | cons a as ih => cases k <;> simp [modN, h, ih]

theorem updateLODAction_none_iff (up down : ℚ) (l : List Hit) :
    updateLODAction up down l = none ↔ ∀ h ∈ l, ¬ actionable up down h := by
  induction l with
  | nil => simp [updateLODAction]
  | cons h rest ih =>
    by_cases h1 : up < h.score
    · simp [updateLODAction, h1, actionable]
    · by_cases h2 : h.score < down ∧ h.hasParent = true
      · simp [updateLODAction, h1, h2, actionable]
      · have hhead : ¬ actionable up down h := by
          rintro (hc | hc)
          · exact h1 hc
          · exact h2 hc
        simp [updateLODAction, h1, h2, ih, hhead]

theorem updateLODAction_first_match (up down : ℚ) (l : List Hit) (a : LodAction)
    (hl : updateLODAction up down l = some a) :
    ∃ pre h post, l = pre ++ h :: post ∧ (∀ g ∈ pre, ¬ actionable up down g) ∧
      actionable up down h ∧
      a = (if up < h.score then LodAction.subdivideNode h.id
           else LodAction.simplifyParentOf h.id) := by
  induction l with
  | nil => simp [updateLODAction] at hl
  | cons h rest ih =>
    by_cases h1 : up < h.score
    · refine ⟨[], h, rest, by simp, by simp, Or.inl h1, ?_⟩
      rw [updateLODAction, if_pos h1] at hl
      rw [if_pos h1]
      exact (Option.some_inj.mp hl).symm
    · by_cases h2 : h.score < down ∧ h.hasParent = true
      · refine ⟨[], h, rest, by simp, by simp, Or.inr h2, ?_⟩
        rw [updateLODAction, if_neg h1, if_pos h2] at hl
        rw [if_neg h1]
        exact (Option.some_inj.mp hl).symm
      · have hl' : updateLODAction up down rest = some a := by
          rw [updateLODAction, if_neg h1, if_neg h2] at hl
          exact hl
        obtain ⟨pre, hh, post, e, hpre, hact, ha⟩ := ih hl'
        refine ⟨h :: pre, hh, post, by simp [e], ?_, hact, ha⟩
        intro g hg
        rcases List.mem_cons.mp hg with rfl | hg
        · rintro (hc | hc)
          · exact h1 hc
          · exact h2 hc
        · exact hpre g hg

/-- C4: an `updateLOD` tick makes at most one structural call: it acts
on the first candidate, in hit order, whose score strictly exceeds
`thresholdUp` (subdividing that node) or is strictly below
`thresholdDown` and has a parent (simplifying the parent); if no
candidate qualifies — in particular if no ray hit anything — no
structural change occurs. -/
theorem C4_single_action_per_tick (up down : ℚ) (l : List Hit) :
    updateLODAction up down [] = none
  ∧ (updateLODAction up down l = none ↔ ∀ h ∈ l, ¬ actionable up down h)
  ∧ ∀ a, updateLODAction up down l = some a →
      ∃ pre h post, l = pre ++ h :: post ∧ (∀ g ∈ pre, ¬ actionable up down g) ∧
        actionable up down h ∧
        a = (if up < h.score then LodAction.subdivideNode h.id
             else LodAction.simplifyParentOf h.id) :=
  ⟨rfl, updateLODAction_none_iff up down l,
   fun a ha => updateLODAction_first_match up down l a ha⟩

theorem C4_witness :
    ∃ pre h post, [exHitQuiet, exHitHot] = pre ++ h :: post ∧
      (∀ g ∈ pre, ¬ actionable (6/10) (15/100) g) ∧ actionable (6/10) (15/100) h ∧
      LodAction.subdivideNode 2 =
        (if (6/10 : ℚ) < h.score then LodAction.subdivideNode h.id
         else LodAction.simplifyParentOf h.id) :=
  (C4_single_action_per_tick (6/10) (15/100) [exHitQuiet, exHitHot]).2.2
    (LodAction.subdivideNode 2) (by norm_num [updateLODAction, exHitQuiet, exHitHot])

/-- C5 counterexample: with the default two rays, a hit found by the
first ray and none by the second, the gathering loop of
`geo-three.ext.js`'s `updateLOD` ends with an empty candidate list —
the first ray's hit does not contribute — whereas the concatenation the
claim describes (and `storage-utils.mjs` computes) contains it. -/
theorem C5_counterexample :
    updateLODGatherExt 2 exRays = []
  ∧ gatherIntersections 2 exRays = [exHitHot]
  ∧ exHitHot ∈ gatherIntersections 2 exRays
  ∧ exHitHot ∉ updateLODGatherExt 2 exRays := by
  refine ⟨rfl, rfl, ?_, ?_⟩ <;> simp [gatherIntersections, updateLODGatherExt, exRays,
    List.range_succ]

theorem gather_foldl_append (f : Nat → List Hit) (l : List Nat) (acc : List Hit) :
    l.foldl (fun acc t => acc ++ f t) acc = acc ++ l.flatMap f := by
  induction l generalizing acc with
  | nil => simp
  | cons a l ih => simp [List.foldl_cons, ih]

/-- C5 amended: `LODRaycast.gatherIntersections` in `storage-utils.mjs`
returns the concatenation of every ray's hits in ray order; the
gathering loop inside `updateLOD` in `geo-three.ext.js` instead
overwrites the list each iteration, so only the final ray's hits are
processed. -/
theorem C5_candidate_lists (n : Nat) (f : Nat → List Hit) :
    gatherIntersections n f = (List.range n).flatMap f
  ∧ (0 < n → updateLODGatherExt n f = f (n - 1)) := by
  constructor
  · exact gather_foldl_append f (List.range n) []
  · intro hn
    obtain ⟨m, rfl⟩ : ∃ m, n = m + 1 := ⟨n - 1, (Nat.succ_pred_eq_of_pos hn).symm⟩
    unfold updateLODGatherExt
    rw [List.range_succ, List.foldl_append]
    simp

theorem C5_witness :
    gatherIntersections 2 exRays = (List.range 2).flatMap exRays
  ∧ updateLODGatherExt 2 exRays = exRays (2 - 1) :=
  ⟨(C5_candidate_lists 2 exRays).1, (C5_candidate_lists 2 exRays).2 (by decide)⟩

/-! ## Path lemmas for `simplifyAt` and `clearT` -/

theorem getAtC_simplifyAt (t : NTree) (π : List Nat) (tt : NTree)
    (h : getAtC t (livePath π) = some tt) :
    getAtC (simplifyAt t π) (livePath π) = some (simplifyLocal tt) := by
  induction π generalizing t with
  | nil =>
    simp [livePath, getAtC] at h
    simp [livePath, getAtC, simplifyAt, h]
  | cons k π ih =>
    cases t with
    | node r cs cache =>
      cases hc : cs[k]? with
      | none => simp [getAtC, hc, livePath] at h
      | some c =>
        have h' : getAtC c (livePath π) = some tt := by
          simpa [getAtC, hc, livePath] using h
        have hrec := ih c h'
        simpa [simplifyAt, getAtC, modN_get_self, hc, livePath] using hrec

theorem clearForest_eq_map (cs : List NTree) : clearForest cs = cs.map clearT := by
  induction cs with
  | nil => rfl
  | cons c cs ih => simp [clearForest, clearT, ih]

theorem getAtC_clearT (t : NTree) (π : List Nat) (r : NRec) (cs : List NTree)
    (cache : Option (List NTree))
    (h : getAtC t (livePath π) = some (.node r cs cache)) :
    getAtC (clearT t) (livePath π) = some (.node (clearRec r) (clearForest cs) none) := by
  induction π generalizing t with
  | nil =>
    simp [livePath, getAtC] at h
    subst h
    simp [livePath, getAtC, clearT]
  | cons k π ih =>
    cases t with
    | node r0 cs0 cache0 =>
      cases hc : cs0[k]? with
      | none => simp [getAtC, hc, livePath] at h
      | some c =>
        have h' : getAtC c (livePath π) = some (.node r cs cache) := by
          simpa [getAtC, hc, livePath] using h
        have hrec := ih c h'
        simpa [clearT, getAtC, clearForest_eq_map, List.getElem?_map, hc, livePath] using hrec

/-! ## C7 — `simplify()` postconditions -/

/-- C7 counterexample: the claim includes "nodesLoaded equals 0" and
"position.y reset to 0" after any `simplify()`, but the `core.mjs`
implementation does not reset `nodesLoaded`, and the `geo-three.ext.js`
implementation resets neither `nodesLoaded` nor `position.y`. -/
theorem C7_counterexample :
    (simplifyCore exCoreRec).nodesLoaded = 3
  ∧ (simplifyCore exCoreRec).nodesLoaded ≠ 0
  ∧ (simplifyExt exExtRec).nodesLoaded = 3
  ∧ (simplifyExt exExtRec).posY = -(1/10)
  ∧ (simplifyExt exExtRec).posY ≠ 0 := by
  refine ⟨rfl, by norm_num [simplifyCore, exCoreRec], rfl, rfl, ?_⟩
  norm_num [simplifyExt, exExtRec]

/-- C7 amended: in the `storage-utils.mjs` implementation, `simplify()`
on a node with non-empty children stores them in `childrenCache`,
empties `children`, resets `nodesLoaded` to 0, clears `subdivided`,
restores `isMesh`, `visible` and `position.y = 0`; the `core.mjs`
variant omits the `nodesLoaded` reset and the `geo-three.ext.js`
variant additionally omits the transform reset. -/
theorem C7_simplify_postconditions (t : NTree) (π : List Nat) (r : NRec)
    (cs : List NTree) (cache : Option (List NTree))
    (h : getAtC t (livePath π) = some (.node r cs cache)) (hcs : 0 < cs.length) :
    ∃ t', getAtC (simplifyAt t π) (livePath π) = some t' ∧
      t'.cacheOf = some cs ∧ t'.kids = [] ∧ t'.top.nodesLoaded = 0 ∧
      t'.top.subdivided = false ∧ t'.top.isMesh = true ∧ t'.top.visible = true ∧
      t'.top.posY = 0 := by
  refine ⟨simplifyLocal (.node r cs cache), getAtC_simplifyAt t π _ h, ?_⟩
  simp [simplifyLocal, NTree.cacheOf, NTree.kids, NTree.top, hcs]

theorem C7_witness :
    ∃ t', getAtC (simplifyAt exSimpleParent []) (livePath []) = some t' ∧
      t'.cacheOf = some [.node (mkNodeRec false false 0 8 40 98) [] none] ∧
      t'.kids = [] ∧ t'.top.nodesLoaded = 0 ∧ t'.top.subdivided = false ∧
      t'.top.isMesh = true ∧ t'.top.visible = true ∧ t'.top.posY = 0 :=
  C7_simplify_postconditions exSimpleParent [] (mkNodeRec false false (-1) 7 20 49)
    [.node (mkNodeRec false false 0 8 40 98) [] none] none rfl (by decide)

/-! ## C8 — provider swaps -/

/-- C8 counterexample: on a HEIGHT-mode view, swapping the image
provider re-issues the texture fetch of the (height) root node but does
not re-trigger `loadHeightGeometry` — `MapView.clear` only calls
`loadTexture` — contradicting the claim that both loads are re-triggered
on every node. -/
theorem C8_counterexample :
    exViewHeight.root.top.fetchedHeight = 1
  ∧ (setProvider exViewHeight 2).providerId = 2
  ∧ (setProvider exViewHeight 2).root.top.fetchedTex = 2
  ∧ (setProvider exViewHeight 2).root.top.fetchedHeight = 1 := by
  refine ⟨rfl, rfl, rfl, rfl⟩

/-- C8 amended: `setProvider`/`setHeightProvider` are no-ops on a
reference-equal provider; on a different provider they replace it and
run `clear()`, which, for every node of the live tree, drops its
`childrenCache` and issues exactly one more texture fetch while leaving
the height-fetch counters untouched (nodes held only in a dropped
`childrenCache` are not visited). -/
theorem C8_provider_swap (v : ViewSt) (p : Nat) (q : Option Nat) (t : NTree)
    (π : List Nat) (r : NRec) (cs : List NTree) (cache : Option (List NTree)) :
    setProvider v v.providerId = v
  ∧ setHeightProvider v v.heightProviderId = v
  ∧ (p ≠ v.providerId →
      (setProvider v p).providerId = p ∧ (setProvider v p).root = clearT v.root)
  ∧ (q ≠ v.heightProviderId →
      (setHeightProvider v q).heightProviderId = q ∧
        (setHeightProvider v q).root = clearT v.root)
  ∧ (getAtC t (livePath π) = some (.node r cs cache) →
      getAtC (clearT t) (livePath π) = some (.node (clearRec r) (clearForest cs) none))
  ∧ (clearRec r).fetchedTex = r.fetchedTex + 1
  ∧ (clearRec r).pendingTex = r.pendingTex + 1
  ∧ (clearRec r).fetchedHeight = r.fetchedHeight
  ∧ (clearRec r).pendingHeight = r.pendingHeight := by
  refine ⟨by simp [setProvider], by simp [setHeightProvider], ?_, ?_,
    fun h => getAtC_clearT t π r cs cache h, rfl, rfl, rfl, rfl⟩
  · intro hp
    simp [setProvider, hp]
  · intro hq
    simp [setHeightProvider, hq]

theorem C8_witness :
    ((setProvider exViewHeight 2).providerId = 2 ∧
      (setProvider exViewHeight 2).root = clearT exViewHeight.root)
  ∧ getAtC (clearT exViewHeight.root) (livePath []) =
      some (.node (clearRec (mkNodeRec true true (-1) 7 20 49)) (clearForest []) none) :=
  ⟨(C8_provider_swap exViewHeight 2 none exViewHeight.root []
      (mkNodeRec true true (-1) 7 20 49) [] none).2.2.1 (by decide),
   (C8_provider_swap exViewHeight 2 none exViewHeight.root []
      (mkNodeRec true true (-1) 7 20 49) [] none).2.2.2.2.1 rfl⟩

/-! ## C3 — `subdivide()` guard conditions -/

theorem subdivideLocal_gate_false (mz : Nat) (hp : Bool) (t : NTree) :
    subdivideLocal mz hp false t = t := by
  cases t with
  | node r cs cache => simp [subdivideLocal]

/-- C3: `subdivide()` is a no-op when the node already has children,
when `level + 1` exceeds the provider's `maxZoom`, or when the node has
a parent whose `nodesLoaded` is below 4; in particular a repeated
`subdivide()` is idempotent.  A no-op leaves the state unchanged, so no
children are created and no fetch counters move. -/
theorem C3_subdivide_noop (mz : Nat) (hp : Bool) (g : Bool) (r : NRec)
    (cs : List NTree) (cache : Option (List NTree)) (k : Nat) :
    (0 < cs.length → subdivideLocal mz hp g (.node r cs cache) = .node r cs cache)
  ∧ (mz < r.level + 1 → subdivideLocal mz hp g (.node r cs cache) = .node r cs cache)
  ∧ (r.nodesLoaded < 4 → subdivideAt mz hp (.node r cs cache) [k] = .node r cs cache)
  ∧ ((∀ l, cache = some l → 0 < l.length) →
      subdivideLocal mz hp g (subdivideLocal mz hp g (.node r cs cache)) =
        subdivideLocal mz hp g (.node r cs cache)) := by
  refine ⟨fun h => by simp [subdivideLocal, h], fun h => by simp [subdivideLocal, h], ?_, ?_⟩
  · intro h
    have hd : decide (4 ≤ r.nodesLoaded) = false := by
      simp [Nat.not_le.mpr h]
    rw [subdivideAt, hd, modN_eq_self _ _ _ (subdivideLocal_gate_false mz hp)]
  · intro hcache
    by_cases hg : 0 < cs.length ∨ mz < r.level + 1 ∨ g = false
    · have e : subdivideLocal mz hp g (.node r cs cache) = .node r cs cache := by
        simp only [subdivideLocal]
        rw [if_pos hg]
      rw [e, e]
    · push_neg at hg
      obtain ⟨hcs, hmz, hgt⟩ := hg
      have hcs0 : cs.length = 0 := Nat.le_zero.mp hcs
      have hmz' : ¬ (mz < r.level + 1) := Nat.not_lt.mpr hmz
      cases cache with
      | some l =>
        have hl : 0 < l.length := hcache l rfl
        simp [subdivideLocal, hcs0, hmz', hgt, hl]
      | none =>
        simp [subdivideLocal, hcs0, hmz', hgt, createChildNodes]

theorem C3_witness :
    subdivideLocal 19 false true exSimpleParent = exSimpleParent
  ∧ subdivideAt 19 false exSimpleParent [0] = exSimpleParent :=
  ⟨(C3_subdivide_noop 19 false true (mkNodeRec false false (-1) 7 20 49)
      [.node (mkNodeRec false false 0 8 40 98) [] none] none 0).1 (by decide),
   (C3_subdivide_noop 19 false true (mkNodeRec false false (-1) 7 20 49)
      [.node (mkNodeRec false false 0 8 40 98) [] none] none 0).2.2.1 (by decide)⟩

/-! ## C1 — fresh subdivision creates the four quadrant children -/

theorem subdivideLocal_fresh (mz : Nat) (hp : Bool) (r : NRec) (h : r.level + 1 ≤ mz) :
    subdivideLocal mz hp true (.node r [] none) =
      .node { r with subdivided := true, posY := -(1/10) }
        (createChildNodes hp { r with subdivided := true }) none := by
  simp [subdivideLocal, Nat.not_lt.mpr h]

/-- C1: on a node with no children and no cache, whose `level + 1` does
not exceed `maxZoom` and whose parent (if any) has `nodesLoaded ≥ 4`,
`subdivide()` creates exactly the four children
`{level+1, 2x, 2y}` (TOP_LEFT), `{level+1, 2x+1, 2y}` (TOP_RIGHT),
`{level+1, 2x, 2y+1}` (BOTTOM_LEFT), `{level+1, 2x+1, 2y+1}`
(BOTTOM_RIGHT), in that order, each of which has issued its own texture
fetch at creation. -/
theorem C1_subdivide_creates_children (mz : Nat) (hp : Bool) (r rp : NRec)
    (cs : List NTree) (cache : Option (List NTree)) (k : Nat) :
    (r.level + 1 ≤ mz →
      (subdivideAt mz hp (.node r [] none) []).kids.map
          (fun c => (c.top.level, c.top.x, c.top.y, c.top.location)) =
        [(r.level + 1, r.x * 2, r.y * 2, (0 : Int)),
         (r.level + 1, r.x * 2 + 1, r.y * 2, 1),
         (r.level + 1, r.x * 2, r.y * 2 + 1, 2),
         (r.level + 1, r.x * 2 + 1, r.y * 2 + 1, 3)]
      ∧ ∀ c ∈ (subdivideAt mz hp (.node r [] none) []).kids,
          c.top.pendingTex = 1 ∧ c.top.fetchedTex = 1 ∧ c.kids = [] ∧ c.cacheOf = none)
  ∧ (4 ≤ rp.nodesLoaded → cs[k]? = some (.node r [] none) → r.level + 1 ≤ mz →
      ∃ t', (subdivideAt mz hp (.node rp cs cache) [k]).kids[k]? = some t' ∧
        t'.kids.map (fun c => (c.top.level, c.top.x, c.top.y, c.top.location)) =
          [(r.level + 1, r.x * 2, r.y * 2, (0 : Int)),
           (r.level + 1, r.x * 2 + 1, r.y * 2, 1),
           (r.level + 1, r.x * 2, r.y * 2 + 1, 2),
           (r.level + 1, r.x * 2 + 1, r.y * 2 + 1, 3)] ∧
        ∀ c ∈ t'.kids, c.top.pendingTex = 1 ∧ c.top.fetchedTex = 1) := by
  constructor
  · intro h
    rw [subdivideAt, subdivideLocal_fresh mz hp r h]
    constructor
    · simp [createChildNodes, mkNodeRec, NTree.kids, NTree.top]
    · intro c hc
      simp [createChildNodes, NTree.kids] at hc
      rcases hc with rfl | rfl | rfl | rfl <;>
        simp [mkNodeRec, NTree.top, NTree.kids, NTree.cacheOf]
  · intro hgate hk h
    refine ⟨subdivideLocal mz hp true (.node r [] none), ?_, ?_, ?_⟩
    · have hd : decide (4 ≤ rp.nodesLoaded) = true := by simp [hgate]
      rw [subdivideAt, hd]
      show (modN (subdivideLocal mz hp true) k cs)[k]? = _
      rw [modN_get_self, hk]
      rfl
    · rw [subdivideLocal_fresh mz hp r h]
      simp [createChildNodes, mkNodeRec, NTree.kids, NTree.top]
    · intro c hc
      rw [subdivideLocal_fresh mz hp r h] at hc
      simp [createChildNodes, NTree.kids] at hc
      rcases hc with rfl | rfl | rfl | rfl <;> simp [mkNodeRec, NTree.top]

theorem C1_witness :
    (subdivideAt 19 false (.node (mkNodeRec false false (-1) 7 20 49) [] none) []).kids.map
        (fun c => (c.top.level, c.top.x, c.top.y, c.top.location)) =
      [(8, 40, 98, (0 : Int)), (8, 41, 98, 1), (8, 40, 99, 2), (8, 41, 99, 3)]
  ∧ ∀ c ∈ (subdivideAt 19 false (.node (mkNodeRec false false (-1) 7 20 49) [] none) []).kids,
      c.top.pendingTex = 1 ∧ c.top.fetchedTex = 1 ∧ c.kids = [] ∧ c.cacheOf = none :=
  (C1_subdivide_creates_children 19 false (mkNodeRec false false (-1) 7 20 49)
    (mkNodeRec false false (-1) 7 20 49) [] none 0).1 (by decide)

/-! ## C6 — subdivide/simplify/subdivide round trip -/

/-- C6: after `subdivide()` (four fresh children, four fetches),
`simplify()` (children cached) and `subdivide()` again, the second
`subdivide()` restores the originally created children from
`childrenCache`: the total fetch count and the node-object count are
unchanged by it, and the restored children are the originally created
ones. -/
theorem C6_round_trip (mz : Nat) (hp : Bool) (r : NRec) (h : r.level + 1 ≤ mz) :
    totFetchTexT (subdivideLocal mz hp true (.node r [] none)) =
      totFetchTexT (.node r [] none) + 4
  ∧ totFetchTexT (subdivideLocal mz hp true
        (simplifyLocal (subdivideLocal mz hp true (.node r [] none)))) =
      totFetchTexT (subdivideLocal mz hp true (.node r [] none))
  ∧ (subdivideLocal mz hp true
        (simplifyLocal (subdivideLocal mz hp true (.node r [] none)))).kids =
      (subdivideLocal mz hp true (.node r [] none)).kids
  ∧ countNodesT (subdivideLocal mz hp true
        (simplifyLocal (subdivideLocal mz hp true (.node r [] none)))) =
      countNodesT (subdivideLocal mz hp true (.node r [] none)) := by
  have hmz : ¬ (mz < r.level + 1) := Nat.not_lt.mpr h
  rw [subdivideLocal_fresh mz hp r h]
  refine ⟨?_, ?_, ?_, ?_⟩ <;>
    simp [simplifyLocal, subdivideLocal, hmz, createChildNodes, mkNodeRec,
      totFetchTexT, totFetchTexF, countNodesT, countNodesF, NTree.kids]

theorem C6_witness :
    totFetchTexT (subdivideLocal 19 false true
        (.node (mkNodeRec false false (-1) 7 20 49) [] none)) =
      totFetchTexT (.node (mkNodeRec false false (-1) 7 20 49) [] none) + 4
  ∧ totFetchTexT (subdivideLocal 19 false true
        (simplifyLocal (subdivideLocal 19 false true
          (.node (mkNodeRec false false (-1) 7 20 49) [] none)))) =
      totFetchTexT (subdivideLocal 19 false true
        (.node (mkNodeRec false false (-1) 7 20 49) [] none))
  ∧ (subdivideLocal 19 false true
        (simplifyLocal (subdivideLocal 19 false true
          (.node (mkNodeRec false false (-1) 7 20 49) [] none)))).kids =
      (subdivideLocal 19 false true
        (.node (mkNodeRec false false (-1) 7 20 49) [] none)).kids
  ∧ countNodesT (subdivideLocal 19 false true
        (simplifyLocal (subdivideLocal 19 false true
          (.node (mkNodeRec false false (-1) 7 20 49) [] none)))) =
      countNodesT (subdivideLocal 19 false true
        (.node (mkNodeRec false false (-1) 7 20 49) [] none)) :=
  C6_round_trip 19 false (mkNodeRec false false (-1) 7 20 49) (by decide)

/-! ## C9 counterexample — provider swaps break the [0,4] interval -/

/-- C9 counterexample: after the root's four children have loaded
(`nodesLoaded = 4`), a provider swap runs `clear()`, which re-triggers
`loadTexture` on every live node; the first re-delivered child texture
calls `nodeReady` again and pushes the root's `nodesLoaded` to 5,
outside the claimed interval [0, 4]. -/
theorem C9_counterexample :
    exLoadedView.root.top.nodesLoaded = 4
  ∧ exOverloadedView.root.top.nodesLoaded = 5
  ∧ ¬ exOverloadedView.root.top.nodesLoaded ≤ 4 := by
  refine ⟨rfl, rfl, by decide⟩

/-! ## C2 — all-or-nothing reveal -/

theorem completeAt_not_subdivided_isMesh (f : NRec → NRec × Bool) (rp : NRec)
    (cs : List NTree) (cache : Option (List NTree)) (m : Nat)
    (h : rp.subdivided = false) :
    (completeAt f (.node rp cs cache) [.live m]).top.isMesh = rp.isMesh := by
  cases hc : cs[m]? with
  | none => simp [completeAt, hc, NTree.top]
  | some c =>
    cases c with
    | node cr ccs ccache =>
      rcases hf : f cr with ⟨cr1, fire⟩
      cases fire with
      | false => simp [completeAt, hc, hf, NTree.top]
      | true => simp [completeAt, hc, hf, readyParent, h, NTree.top, apply_ite]

/-- C2: a parent that freshly subdivided into 4 new children reveals
them all-or-nothing: after any 3 of the 4 child texture loads (in any
order) every child is still invisible and the parent still renders its
own mesh; delivery of the 4th load makes all four children visible and
hides the parent's mesh; and a `nodeReady` reaching a parent that is not
marked `subdivided` never hides that parent's mesh. -/
theorem C2_all_or_nothing_reveal (mz : Nat) (hp : Bool) (r : NRec)
    (hmz : r.level + 1 ≤ mz) (hnl : r.nodesLoaded = 0) (hkind : r.kind = false)
    (i j k l : Nat) (hi : i < 4) (hj : j < 4) (hk : k < 4) (hl : l < 4)
    (hij : i ≠ j) (hik : i ≠ k) (hil : i ≠ l) (hjk : j ≠ k) (hjl : j ≠ l) (hkl : k ≠ l) :
    ((∀ c ∈ (runTexLive hp (subdivideAt mz hp (.node r [] none) []) [i, j, k]).kids,
        c.top.visible = false)
    ∧ (runTexLive hp (subdivideAt mz hp (.node r [] none) []) [i, j, k]).top.isMesh = r.isMesh
    ∧ (runTexLive hp (subdivideAt mz hp (.node r [] none) []) [i, j, k]).top.nodesLoaded = 3
    ∧ (∀ c ∈ (runTexLive hp (subdivideAt mz hp (.node r [] none) []) [i, j, k, l]).kids,
        c.top.visible = true)
    ∧ (runTexLive hp (subdivideAt mz hp (.node r [] none) []) [i, j, k, l]).top.isMesh = false
    ∧ (runTexLive hp (subdivideAt mz hp (.node r [] none) []) [i, j, k, l]).top.nodesLoaded = 4
    ∧ (runTexLive hp (subdivideAt mz hp (.node r [] none) []) [i, j, k, l]).top.subdivided = true)
  ∧ (∀ (f : NRec → NRec × Bool) (rp : NRec) (cs : List NTree)
        (cache : Option (List NTree)) (m : Nat), rp.subdivided = false →
        (completeAt f (.node rp cs cache) [.live m]).top.isMesh = rp.isMesh) := by
  refine ⟨?_, fun f rp cs cache m hsub =>
    completeAt_not_subdivided_isMesh f rp cs cache m hsub⟩
  have hmz' : ¬ (mz < r.level + 1) := Nat.not_lt.mpr hmz
  interval_cases i <;> interval_cases j <;> (try exact absurd rfl hij) <;>
    interval_cases k <;> (try first | exact absurd rfl hik | exact absurd rfl hjk) <;>
    interval_cases l <;>
    (try first | exact absurd rfl hil | exact absurd rfl hjl | exact absurd rfl hkl) <;>
    simp [subdivideAt, subdivideLocal, hmz', runTexLive, completeAt, texComplete,
      readyParent, modN, setVisibleTop, createChildNodes, mkNodeRec, NTree.kids,
      NTree.top, hnl, hkind]

theorem C2_witness :
    ((∀ c ∈ (runTexLive false (subdivideAt 19 false
          (.node (mkNodeRec false false (-1) 7 20 49) [] none) []) [1, 0, 3]).kids,
        c.top.visible = false)
    ∧ (runTexLive false (subdivideAt 19 false
          (.node (mkNodeRec false false (-1) 7 20 49) [] none) []) [1, 0, 3]).top.isMesh =
        (mkNodeRec false false (-1) 7 20 49).isMesh
    ∧ (runTexLive false (subdivideAt 19 false
          (.node (mkNodeRec false false (-1) 7 20 49) [] none) []) [1, 0, 3]).top.nodesLoaded = 3
    ∧ (∀ c ∈ (runTexLive false (subdivideAt 19 false
          (.node (mkNodeRec false false (-1) 7 20 49) [] none) []) [1, 0, 3, 2]).kids,
        c.top.visible = true)
    ∧ (runTexLive false (subdivideAt 19 false
          (.node (mkNodeRec false false (-1) 7 20 49) [] none) []) [1, 0, 3, 2]).top.isMesh = false
    ∧ (runTexLive false (subdivideAt 19 false
          (.node (mkNodeRec false false (-1) 7 20 49) [] none) []) [1, 0, 3, 2]).top.nodesLoaded = 4
    ∧ (runTexLive false (subdivideAt 19 false
          (.node (mkNodeRec false false (-1) 7 20 49) [] none) []) [1, 0, 3, 2]).top.subdivided = true)
  ∧ (∀ (f : NRec → NRec × Bool) (rp : NRec) (cs : List NTree)
        (cache : Option (List NTree)) (m : Nat), rp.subdivided = false →
        (completeAt f (.node rp cs cache) [.live m]).top.isMesh = rp.isMesh) :=
  C2_all_or_nothing_reveal 19 false (mkNodeRec false false (-1) 7 20 49)
    (by decide) rfl rfl 1 0 3 2
    (by decide) (by decide) (by decide) (by decide)
    (by decide) (by decide) (by decide) (by decide) (by decide) (by decide)

/-! ## C10 — a height node is ready only after both loads, exactly once -/

/-- C10: a `MapHeightNode` with a height provider signals readiness
(one `nodeReady`, incrementing the parent's `nodesLoaded` by one) only
after both its texture fetch and its height fetch have resolved, in
either completion order, and only once — later deliveries of either kind
do not signal again.  Without a height provider, texture completion
alone signals readiness. -/
theorem C10_height_ready_once (rp rc rc2 : NRec)
    (hkind : rc.kind = true) (hpt : rc.pendingTex = 1) (hph : rc.pendingHeight = 1)
    (htl : rc.textureLoaded = false) (hhl : rc.heightLoaded = false)
    (hpt2 : rc2.pendingTex = 1) :
    (completeAt (texComplete true) (.node rp [.node rc [] none] none)
        [.live 0]).top.nodesLoaded = rp.nodesLoaded
  ∧ (completeAt heightComplete (.node rp [.node rc [] none] none)
        [.live 0]).top.nodesLoaded = rp.nodesLoaded
  ∧ (completeAt heightComplete (completeAt (texComplete true)
        (.node rp [.node rc [] none] none) [.live 0]) [.live 0]).top.nodesLoaded =
      rp.nodesLoaded + 1
  ∧ (completeAt (texComplete true) (completeAt heightComplete
        (.node rp [.node rc [] none] none) [.live 0]) [.live 0]).top.nodesLoaded =
      rp.nodesLoaded + 1
  ∧ (completeAt (texComplete true) (completeAt heightComplete (completeAt (texComplete true)
        (.node rp [.node rc [] none] none) [.live 0]) [.live 0]) [.live 0]).top.nodesLoaded =
      rp.nodesLoaded + 1
  ∧ (completeAt heightComplete (completeAt heightComplete (completeAt (texComplete true)
        (.node rp [.node rc [] none] none) [.live 0]) [.live 0]) [.live 0]).top.nodesLoaded =
      rp.nodesLoaded + 1
  ∧ (completeAt (texComplete false) (.node rp [.node rc2 [] none] none)
        [.live 0]).top.nodesLoaded = rp.nodesLoaded + 1 := by
  refine ⟨?_, ?_, ?_, ?_, ?_, ?_, ?_⟩
  · simp [completeAt, texComplete, hkind, hpt, hhl, NTree.top]
  · simp [completeAt, heightComplete, hph, htl, NTree.top]
  · by_cases h4 : 3 ≤ rp.nodesLoaded <;>
      simp [completeAt, texComplete, heightComplete, hkind, hpt, hph, htl, hhl,
        readyParent, modN, setVisibleTop, NTree.top, h4, apply_ite]
  · by_cases h4 : 3 ≤ rp.nodesLoaded <;>
      simp [completeAt, texComplete, heightComplete, hkind, hpt, hph, htl, hhl,
        readyParent, modN, setVisibleTop, NTree.top, h4, apply_ite]
  · by_cases h4 : 3 ≤ rp.nodesLoaded <;>
      simp [completeAt, texComplete, heightComplete, hkind, hpt, hph, htl, hhl,
        readyParent, modN, setVisibleTop, NTree.top, h4, apply_ite]
  · by_cases h4 : 3 ≤ rp.nodesLoaded <;>
      simp [completeAt, texComplete, heightComplete, hkind, hpt, hph, htl, hhl,
        readyParent, modN, setVisibleTop, NTree.top, h4, apply_ite]
  · cases hb : rc2.kind <;> by_cases h4 : 3 ≤ rp.nodesLoaded <;>
      simp [completeAt, texComplete, hb, hpt2, readyParent, modN, setVisibleTop,
        NTree.top, h4, apply_ite]

theorem C10_witness :
    (completeAt (texComplete true)
        (.node (mkNodeRec false false (-1) 7 20 49) [.node (mkNodeRec true true 0 8 40 98) [] none] none)
        [.live 0]).top.nodesLoaded = (mkNodeRec false false (-1) 7 20 49).nodesLoaded
  ∧ (completeAt heightComplete
        (.node (mkNodeRec false false (-1) 7 20 49) [.node (mkNodeRec true true 0 8 40 98) [] none] none)
        [.live 0]).top.nodesLoaded = (mkNodeRec false false (-1) 7 20 49).nodesLoaded
  ∧ (completeAt heightComplete (completeAt (texComplete true)
        (.node (mkNodeRec false false (-1) 7 20 49) [.node (mkNodeRec true true 0 8 40 98) [] none] none)
        [.live 0]) [.live 0]).top.nodesLoaded = (mkNodeRec false false (-1) 7 20 49).nodesLoaded + 1
  ∧ (completeAt (texComplete true) (completeAt heightComplete
        (.node (mkNodeRec false false (-1) 7 20 49) [.node (mkNodeRec true true 0 8 40 98) [] none] none)
        [.live 0]) [.live 0]).top.nodesLoaded = (mkNodeRec false false (-1) 7 20 49).nodesLoaded + 1
  ∧ (completeAt (texComplete true) (completeAt heightComplete (completeAt (texComplete true)
        (.node (mkNodeRec false false (-1) 7 20 49) [.node (mkNodeRec true true 0 8 40 98) [] none] none)
        [.live 0]) [.live 0]) [.live 0]).top.nodesLoaded = (mkNodeRec false false (-1) 7 20 49).nodesLoaded + 1
  ∧ (completeAt heightComplete (completeAt heightComplete (completeAt (texComplete true)
        (.node (mkNodeRec false false (-1) 7 20 49) [.node (mkNodeRec true true 0 8 40 98) [] none] none)
        [.live 0]) [.live 0]) [.live 0]).top.nodesLoaded = (mkNodeRec false false (-1) 7 20 49).nodesLoaded + 1
  ∧ (completeAt (texComplete false)
        (.node (mkNodeRec false false (-1) 7 20 49) [.node (mkNodeRec true false 0 8 40 98) [] none] none)
        [.live 0]).top.nodesLoaded = (mkNodeRec false false (-1) 7 20 49).nodesLoaded + 1 :=
  C10_height_ready_once (mkNodeRec false false (-1) 7 20 49)
    (mkNodeRec true true 0 8 40 98) (mkNodeRec true false 0 8 40 98)
    rfl rfl rfl rfl rfl rfl

/-! ## C9 — the loaded-child counter invariant (swap-free runs) -/

theorem treeOK_node (hp : Bool) (r : NRec) (cs : List NTree) (cache : Option (List NTree)) :
    treeOK hp (.node r cs cache) ↔
      recOK hp r cs cache ∧ forestOK hp cs ∧ forestOK hp (cache.getD []) := by
  cases cache with
  | none => simp [treeOK, forestOK, Option.getD]
  | some l => simp [treeOK, Option.getD]

theorem forestOK_iff (hp : Bool) (cs : List NTree) :
    forestOK hp cs ↔ ∀ c ∈ cs, treeOK hp c := by
  induction cs with
  | nil => simp [forestOK]
  | cons c cs ih => simp [forestOK, ih]

theorem forestOK_get (hp : Bool) (cs : List NTree) (k : Nat) (c : NTree)
    (h : forestOK hp cs) (hc : cs[k]? = some c) : treeOK hp c :=
  (forestOK_iff hp cs).mp h c (List.getElem?_mem hc)

theorem length_modN (f : α → α) (k : Nat) (l : List α) :
    (modN f k l).length = l.length := by
  induction l generalizing k with
  | nil => simp [modN]
  | cons a as ih => cases k <;> simp [modN, ih]

theorem debtL_modN_set (hp : Bool) (c' : NTree) (k : Nat) (cs : List NTree) (c : NTree)
    (h : cs[k]? = some c) :
    debtL hp (modN (fun _ => c') k cs) + cap hp c.top =
      debtL hp cs + cap hp c'.top := by
  induction cs generalizing k with
  | nil => simp at h
  | cons a as ih =>
    cases k with
    | zero =>
      simp at h
      subst h
      simp [modN, debtL]
      omega
    | succ k =>
      simp at h
      have := ih k h
      simp [modN, debtL] at this ⊢
      omega

theorem forestOK_modN (hp : Bool) (f : NTree → NTree) (k : Nat) (cs : List NTree)
    (hf : ∀ c, treeOK hp c → treeOK hp (f c)) (h : forestOK hp cs) :
    forestOK hp (modN f k cs) := by
  induction cs generalizing k with
  | nil => simpa [modN] using h
  | cons a as ih =>
    obtain ⟨ha, has⟩ := h
    cases k with
    | zero => exact ⟨hf a ha, has⟩
    | succ k => exact ⟨ha, ih k has⟩

theorem cap_congr (hp : Bool) (r r' : NRec) (h1 : r'.kind = r.kind)
    (h2 : r'.pendingTex = r.pendingTex) (h3 : r'.pendingHeight = r.pendingHeight) :
    cap hp r' = cap hp r := by
  simp [cap, h1, h2, h3]

theorem setVisibleTop_top_cap (hp : Bool) (c : NTree) :
    cap hp (setVisibleTop c).top = cap hp c.top := by
  cases c with
  | node r cs cache => simp [setVisibleTop, NTree.top, cap]

theorem debtL_map_setVisible (hp : Bool) (cs : List NTree) :
    debtL hp (cs.map setVisibleTop) = debtL hp cs := by
  induction cs with
  | nil => simp [debtL]
  | cons c cs ih =>
    have he : ((fun c => cap hp c.top) ∘ setVisibleTop) = (fun c : NTree => cap hp c.top) :=
      funext (fun c => by simp [Function.comp, setVisibleTop_top_cap])
    simp [debtL, setVisibleTop_top_cap, he]

theorem treeOK_setVisibleTop (hp : Bool) (c : NTree) (h : treeOK hp c) :
    treeOK hp (setVisibleTop c) := by
  cases c with
  | node r cs cache =>
    rw [setVisibleTop]
    rw [treeOK_node] at h ⊢
    obtain ⟨⟨hloc, hcount, hcond, hcache⟩, hcs, hcl⟩ := h
    refine ⟨⟨?_, ?_, hcond, hcache⟩, hcs, hcl⟩
    · obtain ⟨p1, p2, p3, p4⟩ := hloc
      exact ⟨p1, p2, p3, p4⟩
    · exact hcount

theorem forestOK_map_setVisible (hp : Bool) (cs : List NTree) (h : forestOK hp cs) :
    forestOK hp (cs.map setVisibleTop) := by
  induction cs with
  | nil => simp [forestOK]
  | cons c cs ih =>
    obtain ⟨hc, hcs⟩ := h
    exact ⟨treeOK_setVisibleTop hp c hc, ih hcs⟩

theorem readyParent_fields (r : NRec) (cs : List NTree) :
    (readyParent r cs).1.nodesLoaded = r.nodesLoaded + 1
  ∧ (readyParent r cs).1.kind = r.kind
  ∧ (readyParent r cs).1.pendingTex = r.pendingTex
  ∧ (readyParent r cs).1.pendingHeight = r.pendingHeight
  ∧ (readyParent r cs).1.textureLoaded = r.textureLoaded
  ∧ (readyParent r cs).1.heightLoaded = r.heightLoaded
  ∧ ((readyParent r cs).2 = cs ∨ (readyParent r cs).2 = cs.map setVisibleTop) := by
  rw [readyParent]
  by_cases h4 : 4 ≤ r.nodesLoaded + 1
  · by_cases hs : r.subdivided <;> simp [h4, hs]
  · simp [h4]

theorem recLocalOK_congr (hp : Bool) (r r' : NRec) (h1 : r'.kind = r.kind)
    (h2 : r'.pendingTex = r.pendingTex) (h3 : r'.pendingHeight = r.pendingHeight)
    (h4 : r'.textureLoaded = r.textureLoaded) (h5 : r'.heightLoaded = r.heightLoaded) :
    recLocalOK hp r' ↔ recLocalOK hp r := by
  simp [recLocalOK, h1, h2, h3, h4, h5]

theorem texComplete_fSpec (hp : Bool) : fSpec hp (texComplete hp) := by
  intro r h
  obtain ⟨h1, h2, h3, h4⟩ := h
  by_cases hpt : r.pendingTex = 0
  · rw [texComplete, if_pos hpt]
    exact ⟨⟨h1, h2, h3, h4⟩, rfl, fun hc => absurd hc (by simp), fun _ => rfl⟩
  · have hpt1 : r.pendingTex = 1 := by omega
    cases hk : r.kind with
    | false =>
      have hkh : (r.kind && hp) = false := by simp [hk]
      rw [texComplete, if_neg hpt, if_neg (by simp [hk])]
      refine ⟨⟨by simp; omega, by simpa using h2, by simp [hk], by simp [hk, h4 hkh]⟩,
        rfl, fun _ => ?_, fun hc => absurd hc (by simp)⟩
      simp [cap, hk, hpt1]
    | true =>
      rw [texComplete, if_neg hpt, if_pos hk]
      cases hhp : hp with
      | false =>
        have hkh : (r.kind && hp) = false := by simp [hhp]
        refine ⟨⟨by simp; omega, by simpa using h2, by simp [hhp], by simp [hk, h4 hkh]⟩,
          rfl, fun _ => ?_, ?_⟩
        · simp [cap, hk, hhp, hpt1]
        · intro hc
          simp [hhp] at hc
      | true =>
        have hkt : (r.kind && hp) = true := by simp [hk, hhp]
        obtain ⟨c1, c2⟩ := h3 hkt
        cases hhl : r.heightLoaded with
        | true =>
          have hph0 : r.pendingHeight = 0 := c2.mp hhl
          refine ⟨⟨by simp; omega, by simpa using h2, ?_, by simp [hk, hhp]⟩,
            rfl, fun _ => ?_, ?_⟩
          · intro _
            constructor
            · simp [hpt1]
            · simpa [hhl] using c2
          · simp [cap, hk, hhp, hpt1, hph0]
          · intro hc
            simp [hhl, hhp] at hc
        | false =>
          have hph1 : r.pendingHeight = 1 := by
            rcases Nat.eq_zero_or_pos r.pendingHeight with h0 | hpos
            · exact absurd (c2.mpr h0) (by simp [hhl])
            · omega
          refine ⟨⟨by simp; omega, by simpa using h2, ?_, by simp [hk, hhp]⟩,
            rfl, ?_, fun _ => ?_⟩
          · intro _
            constructor
            · simp [hpt1]
            · simpa [hhl] using c2
          · intro hc
            simp [hhl, hhp] at hc
          · simp [cap, hk, hhp, hpt1, hph1]

theorem heightComplete_fSpec (hp : Bool) : fSpec hp heightComplete := by
  intro r h
  obtain ⟨h1, h2, h3, h4⟩ := h
  by_cases hph : r.pendingHeight = 0
  · rw [heightComplete, if_pos hph]
    exact ⟨⟨h1, h2, h3, h4⟩, rfl, fun hc => absurd hc (by simp), fun _ => rfl⟩
  · have hph1 : r.pendingHeight = 1 := by omega
    have hkt : (r.kind && hp) = true := by
      by_contra hc
      exact hph (h4 (Bool.not_eq_true _ |>.mp hc))
    obtain ⟨c1, c2⟩ := h3 hkt
    rw [heightComplete, if_neg hph]
    cases htl : r.textureLoaded with
    | true =>
      have hpt0 : r.pendingTex = 0 := c1.mp htl
      refine ⟨⟨by simpa using h1, by simp; omega, ?_, by simp [hkt]⟩, rfl, fun _ => ?_, ?_⟩
      · intro _
        constructor
        · simpa [htl] using c1
        · simp [hph1]
      · obtain ⟨hkk, hpp⟩ := Bool.and_eq_true _ _ |>.mp hkt
        simp [cap, hkk, hpp, hpt0, hph1]
      · intro hc
        simp [htl] at hc
    | false =>
      have hpt1 : r.pendingTex = 1 := by
        rcases Nat.eq_zero_or_pos r.pendingTex with h0 | hpos
        · exact absurd (c1.mpr h0) (by simp [htl])
        · omega
      refine ⟨⟨by simpa using h1, by simp; omega, ?_, by simp [hkt]⟩, rfl, ?_, fun _ => ?_⟩
      · intro _
        constructor
        · simpa [htl] using c1
        · simp [hph1]
      · intro hc
        simp [htl] at hc
      · obtain ⟨hkk, hpp⟩ := Bool.and_eq_true _ _ |>.mp hkt
        simp [cap, hkk, hpp, hpt1, hph1]

theorem debtL_nil (hp : Bool) : debtL hp [] = 0 := by
  simp [debtL]

theorem debtL_cons (hp : Bool) (c : NTree) (cs : List NTree) :
    debtL hp (c :: cs) = cap hp c.top + debtL hp cs := by
  simp [debtL]

theorem debtL_modN_cap (hp : Bool) (f : NTree → NTree) (k : Nat) (cs : List NTree)
    (hf : ∀ c, cap hp (f c).top = cap hp c.top) :
    debtL hp (modN f k cs) = debtL hp cs := by
  induction cs generalizing k with
  | nil => simp [modN]
  | cons a as ih =>
    cases k with
    | zero => simp [modN, debtL_cons, hf]
    | succ n => simp [modN, debtL_cons, hf, ih n]

/-- Modifying one live child with a subtree transformation that keeps
the invariant and does not change the child's outstanding `nodeReady`
capacity keeps the parent's invariant. -/
theorem treeOK_modKid (hp : Bool) (r : NRec) (cs : List NTree) (cache : Option (List NTree))
    (f : NTree → NTree) (k : Nat)
    (hcap : ∀ c, cap hp (f c).top = cap hp c.top)
    (hok : ∀ c, treeOK hp c → treeOK hp (f c))
    (h : treeOK hp (.node r cs cache)) :
    treeOK hp (.node r (modN f k cs) cache) := by
  rw [treeOK_node] at h ⊢
  obtain ⟨⟨hloc, hcount, hcond, hcache⟩, hcs, hcl⟩ := h
  refine ⟨⟨hloc, ?_, ?_, hcache⟩, forestOK_modN hp f k cs hok hcs, hcl⟩
  · rw [debtL_modN_cap hp f k cs hcap]
    exact hcount
  · rintro ⟨he, hnone⟩
    apply hcond
    refine ⟨?_, hnone⟩
    have hlen := length_modN f k cs
    rw [he] at hlen
    exact List.length_eq_zero.mp hlen.symm

/-- The cached analogue of `treeOK_modKid`. -/
theorem treeOK_modCache (hp : Bool) (r : NRec) (cs : List NTree) (cache : Option (List NTree))
    (f : NTree → NTree) (k : Nat)
    (hcap : ∀ c, cap hp (f c).top = cap hp c.top)
    (hok : ∀ c, treeOK hp c → treeOK hp (f c))
    (h : treeOK hp (.node r cs cache)) :
    treeOK hp (.node r cs (cache.map (modN f k))) := by
  cases cache with
  | none => simpa using h
  | some l =>
    rw [treeOK_node] at h ⊢
    obtain ⟨⟨hloc, hcount, hcond, hcache⟩, hcs, hcl⟩ := h
    refine ⟨⟨hloc, ?_, ?_, ?_⟩, hcs, ?_⟩
    · simpa [debtL_modN_cap hp f k l hcap] using hcount
    · rintro ⟨_, hnone⟩
      simp at hnone
    · intro l' hl'
      simp at hl'
      intro he
      rw [← hl'] at he
      have hlen := length_modN f k l
      rw [he] at hlen
      exact hcache l rfl (List.length_eq_zero.mp hlen.symm)
    · simpa using forestOK_modN hp f k l hok hcl

theorem subdivideLocal_top_fields (mz : Nat) (hp g : Bool) (t : NTree) :
    cap hp (subdivideLocal mz hp g t).top = cap hp t.top
  ∧ (subdivideLocal mz hp g t).top.nodesLoaded = t.top.nodesLoaded := by
  cases t with
  | node r cs cache =>
    rw [subdivideLocal]
    by_cases hg : 0 < cs.length ∨ mz < r.level + 1 ∨ g = false
    · simp [hg, NTree.top]
    · cases cache <;> simp [hg, NTree.top, cap]

theorem treeOK_subdivideLocal (mz : Nat) (hp g : Bool) (t : NTree) (h : treeOK hp t) :
    treeOK hp (subdivideLocal mz hp g t) := by
  cases t with
  | node r cs cache =>
    rw [subdivideLocal]
    by_cases hg : 0 < cs.length ∨ mz < r.level + 1 ∨ g = false
    · rwa [if_pos hg]
    · rw [if_neg hg]
      push_neg at hg
      obtain ⟨hcs0, _, _⟩ := hg
      have hcs : cs = [] := by
        cases cs with
        | nil => rfl
        | cons a as => simp at hcs0
      subst hcs
      rw [treeOK_node] at h
      obtain ⟨⟨hloc, hcount, hcond, hcache⟩, _, hclOK⟩ := h
      cases cache with
      | some l =>
        rw [treeOK_node]
        refine ⟨⟨?_, ?_, ?_, ?_⟩, ?_, ?_⟩
        · exact (recLocalOK_congr hp _ r rfl rfl rfl rfl rfl).mpr hloc
        · simp [debtL_nil] at hcount ⊢
          omega
        · rintro ⟨hl0, _⟩
          exact absurd hl0 (hcache l rfl)
        · intro l' hl'
          exact absurd hl' (by simp)
        · simpa using hclOK
        · simp [forestOK]
      | none =>
        have hn0 : r.nodesLoaded = 0 := hcond ⟨rfl, rfl⟩
        rw [treeOK_node]
        refine ⟨⟨?_, ?_, ?_, ?_⟩, ?_, ?_⟩
        · exact (recLocalOK_congr hp _ r rfl rfl rfl rfl rfl).mpr hloc
        · have hdebt : ∀ r' : NRec, debtL hp (createChildNodes hp r') = 4 := by
            intro r'
            cases hb : (r'.kind && hp) <;>
              simp [debtL, createChildNodes, mkNodeRec, cap, NTree.top, hb]
          simp [hdebt, hn0, debtL_nil]
        · intro ⟨he, _⟩
          simp [createChildNodes] at he
        · intro l' hl'
          exact absurd hl' (by simp)
        · have hkid : ∀ loc lv xx yy,
              treeOK hp (.node (mkNodeRec r.kind hp loc lv xx yy) [] none) := by
            intro loc lv xx yy
            rw [treeOK_node]
            refine ⟨⟨?_, ?_, ?_, ?_⟩, ?_, ?_⟩
            · refine ⟨by simp [mkNodeRec], ?_, ?_, ?_⟩
              · cases hb : (r.kind && hp) <;> simp [mkNodeRec, hb]
              · intro hb
                simp [mkNodeRec] at hb
                simp [mkNodeRec, hb]
              · intro hb
                simp [mkNodeRec] at hb ⊢
                intro hk
                simp [hk] at hb
                simp [hb]
            · simp [mkNodeRec, debtL]
            · intro _
              simp [mkNodeRec]
            · intro l' hl'
              exact absurd hl' (by simp)
            · simp [forestOK]
            · simp [forestOK]
          simp only [createChildNodes, forestOK]
          exact ⟨hkid _ _ _ _, hkid _ _ _ _, hkid _ _ _ _, hkid _ _ _ _, trivial⟩
        · simp [forestOK]

theorem treeOK_simplifyLocal (hp : Bool) (t : NTree) (h : treeOK hp t) :
    treeOK hp (simplifyLocal t) := by
  cases t with
  | node r cs cache =>
    rw [simplifyLocal]
    rw [treeOK_node] at h
    obtain ⟨⟨hloc, hcount, hcond, hcache⟩, hcsOK, hclOK⟩ := h
    by_cases hcs : 0 < cs.length
    · rw [treeOK_node]
      refine ⟨⟨?_, ?_, ?_, ?_⟩, ?_, ?_⟩
      · exact (recLocalOK_congr hp _ r rfl rfl rfl rfl rfl).mpr hloc
      · simp [hcs, debtL_nil] at hcount ⊢
        omega
      · rintro ⟨_, hnone⟩
        simp [hcs] at hnone
      · intro l' hl'
        simp [hcs] at hl'
        rw [← hl']
        intro he
        rw [he] at hcs
        simp at hcs
      · simp [forestOK]
      · simpa [hcs] using hcsOK
    · have hcs0 : cs = [] := by
        cases cs with
        | nil => rfl
        | cons a as => simp at hcs
      subst hcs0
      rw [treeOK_node]
      refine ⟨⟨?_, ?_, ?_, ?_⟩, ?_, ?_⟩
      · exact (recLocalOK_congr hp _ r rfl rfl rfl rfl rfl).mpr hloc
      · simp [debtL_nil] at hcount ⊢
        omega
      · intro _
        rfl
      · intro l' hl'
        simp at hl'
        exact hcache l' hl'
      · simp [forestOK]
      · simpa using hclOK

theorem simplifyAt_nil (t : NTree) : simplifyAt t [] = simplifyLocal t := by
  cases t with
  | node r cs cache => rfl

theorem subdivideAt_nil (mz : Nat) (hp : Bool) (t : NTree) :
    subdivideAt mz hp t [] = subdivideLocal mz hp true t := by
  cases t with
  | node r cs cache => rfl

theorem simplifyAt_top_cap (hp : Bool) (t : NTree) (π : List Nat) :
    cap hp (simplifyAt t π).top = cap hp t.top := by
  cases π with
  | nil =>
    rw [simplifyAt_nil]
    cases t with
    | node r cs cache => simp [simplifyLocal, NTree.top, cap]
  | cons k π =>
    cases t with
    | node r cs cache => simp [simplifyAt, NTree.top]

theorem treeOK_simplifyAt (hp : Bool) (t : NTree) (π : List Nat) (h : treeOK hp t) :
    treeOK hp (simplifyAt t π) := by
  induction π generalizing t with
  | nil =>
    rw [simplifyAt_nil]
    exact treeOK_simplifyLocal hp t h
  | cons k π ih =>
    cases t with
    | node r cs cache =>
      rw [simplifyAt]
      exact treeOK_modKid hp r cs cache _ k (fun c => simplifyAt_top_cap hp c π)
        (fun c hc => ih c hc) h

theorem subdivideAt_top_cap (mz : Nat) (hp : Bool) (t : NTree) (π : List Nat) :
    cap hp (subdivideAt mz hp t π).top = cap hp t.top := by
  cases π with
  | nil =>
    rw [subdivideAt_nil]
    exact (subdivideLocal_top_fields mz hp true t).1
  | cons k rest =>
    cases t with
    | node r cs cache =>
      cases rest <;> simp [subdivideAt, NTree.top]

theorem treeOK_subdivideAt (mz : Nat) (hp : Bool) (t : NTree) (π : List Nat)
    (h : treeOK hp t) : treeOK hp (subdivideAt mz hp t π) := by
  induction π generalizing t with
  | nil =>
    rw [subdivideAt_nil]
    exact treeOK_subdivideLocal mz hp true t h
  | cons k rest ih =>
    cases t with
    | node r cs cache =>
      cases rest with
      | nil =>
        rw [subdivideAt]
        exact treeOK_modKid hp r cs cache _ k
          (fun c => (subdivideLocal_top_fields mz hp _ c).1)
          (fun c hc => treeOK_subdivideLocal mz hp _ c hc) h
      | cons j π2 =>
        rw [subdivideAt]
        exact treeOK_modKid hp r cs cache _ k
          (fun c => subdivideAt_top_cap mz hp c (j :: π2))
          (fun c hc => ih c hc) h

theorem completeAt_nil (f : NRec → NRec × Bool) (r : NRec) (cs : List NTree)
    (cache : Option (List NTree)) :
    completeAt f (.node r cs cache) [] =
      (if (f r).2 then NTree.node { (f r).1 with visible := true } cs cache
       else .node (f r).1 cs cache) := rfl

theorem completeAt_live_one (f : NRec → NRec × Bool) (r : NRec) (cs : List NTree)
    (cache : Option (List NTree)) (k : Nat) :
    completeAt f (.node r cs cache) [.live k] =
      (match cs[k]? with
       | none => NTree.node r cs cache
       | some (.node cr ccs ccache) =>
         let p := f cr
         let cs1 := modN (fun _ => NTree.node p.1 ccs ccache) k cs
         if p.2 then
           let q := readyParent r cs1
           NTree.node q.1 q.2 cache
         else NTree.node r cs1 cache) := rfl

theorem completeAt_cached_one (f : NRec → NRec × Bool) (r : NRec) (cs : List NTree)
    (cache : Option (List NTree)) (k : Nat) :
    completeAt f (.node r cs cache) [.cached k] =
      (match cache with
       | none => NTree.node r cs none
       | some l =>
         match l[k]? with
         | none => NTree.node r cs (some l)
         | some (.node cr ccs ccache) =>
           let p := f cr
           let l1 := modN (fun _ => NTree.node p.1 ccs ccache) k l
           if p.2 then
             let q := readyParent r cs
             NTree.node q.1 q.2 (some l1)
           else NTree.node r cs (some l1)) := rfl

theorem completeAt_live_cons (f : NRec → NRec × Bool) (r : NRec) (cs : List NTree)
    (cache : Option (List NTree)) (k : Nat) (s : CStep) (π : List CStep) :
    completeAt f (.node r cs cache) (.live k :: s :: π) =
      .node r (modN (fun c => completeAt f c (s :: π)) k cs) cache := rfl

theorem completeAt_cached_cons (f : NRec → NRec × Bool) (r : NRec) (cs : List NTree)
    (cache : Option (List NTree)) (k : Nat) (s : CStep) (π : List CStep) :
    completeAt f (.node r cs cache) (.cached k :: s :: π) =
      .node r cs (cache.map (modN (fun c => completeAt f c (s :: π)) k)) := rfl

theorem completeAt_top_cap (hp : Bool) (f : NRec → NRec × Bool) (t : NTree) (s : CStep)
    (π : List CStep) :
    cap hp (completeAt f t (s :: π)).top = cap hp t.top := by
  cases t with
  | node r cs cache =>
    cases s with
    | live k =>
      cases π with
      | nil =>
        rw [completeAt_live_one]
        cases hc : cs[k]? with
        | none => simp [NTree.top]
        | some c =>
          cases c with
          | node cr ccs ccache =>
            simp only [hc]
            by_cases hfire : (f cr).2 = true
            · obtain ⟨_, q2, q3, q4, _, _, _⟩ :=
                readyParent_fields r (modN (fun _ => NTree.node (f cr).1 ccs ccache) k cs)
              simp only [hfire, if_true, NTree.top]
              exact cap_congr hp r _ q2 q3 q4
            · simp [hfire, NTree.top]
      | cons s2 π2 =>
        rw [completeAt_live_cons]
        simp [NTree.top]
    | cached k =>
      cases π with
      | nil =>
        rw [completeAt_cached_one]
        cases cache with
        | none => simp [NTree.top]
        | some l =>
          cases hc : l[k]? with
          | none => simp [hc, NTree.top]
          | some c =>
            cases c with
            | node cr ccs ccache =>
              simp only [hc]
              by_cases hfire : (f cr).2 = true
              · obtain ⟨_, q2, q3, q4, _, _, _⟩ := readyParent_fields r cs
                simp only [hfire, if_true, NTree.top]
                exact cap_congr hp r _ q2 q3 q4
              · simp [hfire, NTree.top]
      | cons s2 π2 =>
        rw [completeAt_cached_cons]
        simp [NTree.top]

theorem treeOK_completeAt (hp : Bool) (f : NRec → NRec × Bool) (hf : fSpec hp f)
    (t : NTree) (π : List CStep) (h : treeOK hp t) : treeOK hp (completeAt f t π) := by
  induction π generalizing t with
  | nil =>
    cases t with
    | node r cs cache =>
      rw [completeAt_nil]
      rw [treeOK_node] at h
      obtain ⟨⟨hloc, hcount, hcond, hcache⟩, hcsOK, hclOK⟩ := h
      obtain ⟨hloc', hnl, _, _⟩ := hf r hloc
      by_cases hfire : (f r).2 = true
      · rw [if_pos hfire, treeOK_node]
        refine ⟨⟨?_, ?_, ?_, hcache⟩, hcsOK, hclOK⟩
        · exact (recLocalOK_congr hp _ (f r).1 rfl rfl rfl rfl rfl).mpr hloc'
        · simpa [hnl] using hcount
        · intro hcc
          simpa [hnl] using hcond hcc
      · rw [if_neg hfire, treeOK_node]
        refine ⟨⟨hloc', ?_, ?_, hcache⟩, hcsOK, hclOK⟩
        · simpa [hnl] using hcount
        · intro hcc
          simpa [hnl] using hcond hcc
  | cons s rest ih =>
    cases t with
    | node r cs cache =>
      cases s with
      | live k =>
        cases rest with
        | nil =>
          rw [completeAt_live_one]
          cases hc : cs[k]? with
          | none => simpa using h
          | some c =>
            cases c with
            | node cr ccs ccache =>
              simp only [hc]
              rw [treeOK_node] at h
              obtain ⟨⟨hloc, hcount, hcond, hcache⟩, hcsOK, hclOK⟩ := h
              have hcOK := forestOK_get hp cs k _ hcsOK hc
              rw [treeOK_node] at hcOK
              obtain ⟨⟨hcloc, hccount, hccond, hccache⟩, hccs, hccl⟩ := hcOK
              obtain ⟨hcloc', hcnl, hcapF, hcapN⟩ := hf cr hcloc
              have hchild : treeOK hp (.node (f cr).1 ccs ccache) := by
                rw [treeOK_node]
                refine ⟨⟨hcloc', ?_, ?_, hccache⟩, hccs, hccl⟩
                · simpa [hcnl] using hccount
                · intro hcc
                  simpa [hcnl] using hccond hcc
              have hdset := debtL_modN_set hp (.node (f cr).1 ccs ccache) k cs _ hc
              simp only [NTree.top] at hdset
              have hfor1 : forestOK hp (modN (fun _ => NTree.node (f cr).1 ccs ccache) k cs) :=
                forestOK_modN hp _ k cs (fun _ _ => hchild) hcsOK
              have hcsne : cs ≠ [] := by
                intro he
                rw [he] at hc
                simp at hc
              by_cases hfire : (f cr).2 = true
              · simp only [hfire, if_true]
                obtain ⟨q1, q2, q3, q4, q5, q6, q7⟩ :=
                  readyParent_fields r (modN (fun _ => NTree.node (f cr).1 ccs ccache) k cs)
                have hdq : debtL hp
                    (readyParent r (modN (fun _ => NTree.node (f cr).1 ccs ccache) k cs)).2 =
                    debtL hp (modN (fun _ => NTree.node (f cr).1 ccs ccache) k cs) := by
                  rcases q7 with h7 | h7 <;> rw [h7]
                  rw [debtL_map_setVisible]
                have hlq : (readyParent r
                    (modN (fun _ => NTree.node (f cr).1 ccs ccache) k cs)).2.length =
                    cs.length := by
                  rcases q7 with h7 | h7 <;> rw [h7] <;>
                    simp [length_modN]
                rw [treeOK_node]
                refine ⟨⟨?_, ?_, ?_, hcache⟩, ?_, hclOK⟩
                · exact (recLocalOK_congr hp r _ q2 q3 q4 q5 q6).mpr hloc
                · rw [q1, hdq]
                  have := hcapF hfire
                  omega
                · rintro ⟨he, _⟩
                  rw [he] at hlq
                  exact absurd (List.length_eq_zero.mp hlq.symm) hcsne
                · rcases q7 with h7 | h7 <;> rw [h7]
                  · exact hfor1
                  · exact forestOK_map_setVisible hp _ hfor1
              · rw [if_neg hfire, treeOK_node]
                refine ⟨⟨hloc, ?_, ?_, hcache⟩, hfor1, hclOK⟩
                · have := hcapN (Bool.not_eq_true _ |>.mp hfire)
                  omega
                · rintro ⟨he, _⟩
                  have hlen := length_modN (fun _ => NTree.node (f cr).1 ccs ccache) k cs
                  rw [he] at hlen
                  exact absurd (List.length_eq_zero.mp hlen.symm) hcsne
        | cons s2 π2 =>
          rw [completeAt_live_cons]
          exact treeOK_modKid hp r cs cache _ k
            (fun c => completeAt_top_cap hp f c s2 π2) (fun c hc => ih c hc) h
      | cached k =>
        cases rest with
        | nil =>
          rw [completeAt_cached_one]
          cases cache with
          | none => simpa using h
          | some l =>
            cases hc : l[k]? with
            | none => simpa [hc] using h
            | some c =>
              cases c with
              | node cr ccs ccache =>
                simp only [hc]
                rw [treeOK_node] at h
                obtain ⟨⟨hloc, hcount, hcond, hcache⟩, hcsOK, hclOK⟩ := h
                have hcOK := forestOK_get hp l k _ (by simpa using hclOK) hc
                rw [treeOK_node] at hcOK
                obtain ⟨⟨hcloc, hccount, hccond, hccache⟩, hccs, hccl⟩ := hcOK
                obtain ⟨hcloc', hcnl, hcapF, hcapN⟩ := hf cr hcloc
                have hchild : treeOK hp (.node (f cr).1 ccs ccache) := by
                  rw [treeOK_node]
                  refine ⟨⟨hcloc', ?_, ?_, hccache⟩, hccs, hccl⟩
                  · simpa [hcnl] using hccount
                  · intro hcc
                    simpa [hcnl] using hccond hcc
                have hdset := debtL_modN_set hp (.node (f cr).1 ccs ccache) k l _ hc
                simp only [NTree.top] at hdset
                have hfor1 : forestOK hp (modN (fun _ => NTree.node (f cr).1 ccs ccache) k l) :=
                  forestOK_modN hp _ k l (fun _ _ => hchild) (by simpa using hclOK)
                have hlne : l ≠ [] := hcache l rfl
                have hlen := length_modN (fun _ => NTree.node (f cr).1 ccs ccache) k l
                by_cases hfire : (f cr).2 = true
                · simp only [hfire, if_true]
                  obtain ⟨q1, q2, q3, q4, q5, q6, q7⟩ := readyParent_fields r cs
                  have hdq : debtL hp (readyParent r cs).2 = debtL hp cs := by
                    rcases q7 with h7 | h7 <;> rw [h7]
                    rw [debtL_map_setVisible]
                  have hlq : (readyParent r cs).2.length = cs.length := by
                    rcases q7 with h7 | h7 <;> simp [h7]
                  rw [treeOK_node]
                  refine ⟨⟨?_, ?_, ?_, ?_⟩, ?_, ?_⟩
                  · exact (recLocalOK_congr hp r _ q2 q3 q4 q5 q6).mpr hloc
                  · rw [q1]
                    simp only [Option.getD_some] at hcount ⊢
                    rw [hdq]
                    have := hcapF hfire
                    omega
                  · rintro ⟨_, hnone⟩
                    simp at hnone
                  · intro l' hl'
                    simp at hl'
                    rw [← hl']
                    intro he
                    rw [he] at hlen
                    exact hlne (List.length_eq_zero.mp hlen.symm)
                  · rcases q7 with h7 | h7 <;> rw [h7]
                    · exact hcsOK
                    · exact forestOK_map_setVisible hp _ hcsOK
                  · simpa using hfor1
                · rw [if_neg hfire, treeOK_node]
                  refine ⟨⟨hloc, ?_, ?_, ?_⟩, hcsOK, ?_⟩
                  · simp only [Option.getD_some] at hcount ⊢
                    have := hcapN (Bool.not_eq_true _ |>.mp hfire)
                    omega
                  · rintro ⟨_, hnone⟩
                    simp at hnone
                  · intro l' hl'
                    simp at hl'
                    rw [← hl']
                    intro he
                    rw [he] at hlen
                    exact hlne (List.length_eq_zero.mp hlen.symm)
                  · simpa using hfor1
        | cons s2 π2 =>
          rw [completeAt_cached_cons]
          exact treeOK_modCache hp r cs cache _ k
            (fun c => completeAt_top_cap hp f c s2 π2) (fun c hc => ih c hc) h

theorem treeOK_mkNode (hp kind : Bool) (loc : Int) (lv xx yy : Nat) :
    treeOK hp (.node (mkNodeRec kind hp loc lv xx yy) [] none) := by
  rw [treeOK_node]
  refine ⟨⟨⟨?_, ?_, ?_, ?_⟩, ?_, ?_, ?_⟩, ?_, ?_⟩
  · simp [mkNodeRec]
  · cases hb : (kind && hp) <;> simp [mkNodeRec, hb]
  · intro hb
    simp [mkNodeRec] at hb
    simp [mkNodeRec, hb]
  · intro hb
    simp only [mkNodeRec] at hb
    simp [mkNodeRec, hb]
  · simp [mkNodeRec, debtL_nil]
  · intro _
    simp [mkNodeRec]
  · intro l' hl'
    exact absurd hl' (by simp)
  · simp [forestOK]
  · simp [forestOK]

theorem treeOK_applyOp (v : ViewSt) (op : Op) (h : treeOK v.hp v.root) :
    treeOK (applyOp v op).hp (applyOp v op).root := by
  cases op with
  | subdivOp π => exact treeOK_subdivideAt v.maxZoom v.hp v.root π h
  | simplifyOp π => exact treeOK_simplifyAt v.hp v.root π h
  | texOp π => exact treeOK_completeAt v.hp _ (texComplete_fSpec v.hp) v.root π h
  | heightOp π => exact treeOK_completeAt v.hp _ (heightComplete_fSpec v.hp) v.root π h

theorem treeOK_runOps (v : ViewSt) (ops : List Op) (h : treeOK v.hp v.root) :
    treeOK (runOps v ops).hp (runOps v ops).root := by
  induction ops generalizing v with
  | nil => exact h
  | cons op ops ih => exact ih (applyOp v op) (treeOK_applyOp v op h)

theorem treeOK_getAtC (hp : Bool) (t : NTree) (π : List CStep) (t' : NTree)
    (h : treeOK hp t) (hg : getAtC t π = some t') : treeOK hp t' := by
  induction π generalizing t with
  | nil =>
    simp [getAtC] at hg
    rwa [← hg]
  | cons s π ih =>
    cases t with
    | node r cs cache =>
      cases s with
      | live k =>
        cases hc : cs[k]? with
        | none => simp [getAtC, hc] at hg
        | some c =>
          have hg' : getAtC c π = some t' := by simpa [getAtC, hc] using hg
          rw [treeOK_node] at h
          exact ih c (forestOK_get hp cs k c h.2.1 hc) hg'
      | cached k =>
        cases cache with
        | none => simp [getAtC] at hg
        | some l =>
          cases hc : l[k]? with
          | none => simp [getAtC, hc] at hg
          | some c =>
            have hg' : getAtC c π = some t' := by simpa [getAtC, hc] using hg
            rw [treeOK_node] at h
            exact ih c (forestOK_get hp l k c (by simpa using h.2.2) hc) hg'

theorem top_nodesLoaded_le (hp : Bool) (t : NTree) (h : treeOK hp t) :
    t.top.nodesLoaded ≤ 4 := by
  cases t with
  | node r cs cache =>
    rw [treeOK_node] at h
    obtain ⟨⟨_, hcount, _, _⟩, _, _⟩ := h
    simp [NTree.top]
    omega

/-- C9 amended: along any swap-free run (subdivisions, simplifications
and asynchronous load completions) from a freshly constructed map view,
every node's `nodesLoaded` stays in [0, 4] (it is a natural number, so
0 is a lower bound by type).  Moreover the counter is only ever written
by `nodeReady`'s increment through `readyParent` or by `simplify`'s
reset to 0 — every other primitive leaves it unchanged — and
`simplify()` at a node resets exactly that node's counter to 0.  With a
provider swap (`MapView.clear` re-triggering `loadTexture`) the [0, 4]
interval fails, as the counterexample shows. -/
theorem C9_loaded_counter (heightMode : Bool) (pid : Nat) (hpid : Option Nat)
    (mzv lv xv yv : Nat) (ops : List Op) (π : List CStep) (t' : NTree) :
    (getAtC (runOps (mkMapView heightMode pid hpid mzv lv xv yv) ops).root π = some t' →
      t'.top.nodesLoaded ≤ 4)
  ∧ (∀ (r : NRec) (cs : List NTree), (readyParent r cs).1.nodesLoaded = r.nodesLoaded + 1)
  ∧ (∀ t : NTree, (simplifyLocal t).top.nodesLoaded = 0)
  ∧ (∀ (hp : Bool) (r : NRec), (texComplete hp r).1.nodesLoaded = r.nodesLoaded)
  ∧ (∀ r : NRec, (heightComplete r).1.nodesLoaded = r.nodesLoaded)
  ∧ (∀ (mz : Nat) (hp g : Bool) (t : NTree),
      (subdivideLocal mz hp g t).top.nodesLoaded = t.top.nodesLoaded)
  ∧ (∀ t : NTree, (setVisibleTop t).top.nodesLoaded = t.top.nodesLoaded)
  ∧ (∀ r : NRec, (clearRec r).nodesLoaded = r.nodesLoaded)
  ∧ (∀ (t : NTree) (πs : List Nat) (tt : NTree), getAtC t (livePath πs) = some tt →
      getAtC (simplifyAt t πs) (livePath πs) = some (simplifyLocal tt) ∧
        (simplifyLocal tt).top.nodesLoaded = 0) := by
  refine ⟨?_, ?_, ?_, ?_, ?_, ?_, ?_, fun _ => rfl, ?_⟩
  · intro hg
    have h0 : treeOK (mkMapView heightMode pid hpid mzv lv xv yv).hp
        (mkMapView heightMode pid hpid mzv lv xv yv).root :=
      treeOK_mkNode _ heightMode (-1) lv xv yv
    have h1 := treeOK_runOps (mkMapView heightMode pid hpid mzv lv xv yv) ops h0
    exact top_nodesLoaded_le _ t' (treeOK_getAtC _ _ π t' h1 hg)
  · intro r cs
    exact (readyParent_fields r cs).1
  · intro t
    cases t with
    | node r cs cache => simp [simplifyLocal, NTree.top]
  · intro hp r
    rw [texComplete]
    by_cases hpt : r.pendingTex = 0
    · rw [if_pos hpt]
    · rw [if_neg hpt]
      by_cases hk : r.kind = true
      · rw [if_pos hk]
      · rw [if_neg hk]
  · intro r
    rw [heightComplete]
    by_cases hph : r.pendingHeight = 0
    · rw [if_pos hph]
    · rw [if_neg hph]
  · intro mz hp g t
    exact (subdivideLocal_top_fields mz hp g t).2
  · intro t
    cases t with
    | node r cs cache => simp [setVisibleTop, NTree.top]
  · intro t πs tt hg
    refine ⟨getAtC_simplifyAt t πs tt hg, ?_⟩
    cases tt with
    | node r cs cache => simp [simplifyLocal, NTree.top]

theorem C9_witness :
    exLoadedView.root.top.nodesLoaded ≤ 4
  ∧ (getAtC (simplifyAt exSimpleParent []) (livePath []) =
      some (simplifyLocal (.node (mkNodeRec false false (-1) 7 20 49)
        [.node (mkNodeRec false false 0 8 40 98) [] none] none)) ∧
    (simplifyLocal (.node (mkNodeRec false false (-1) 7 20 49)
        [.node (mkNodeRec false false 0 8 40 98) [] none] none)).top.nodesLoaded = 0) :=
  ⟨(C9_loaded_counter false 1 none 19 7 20 49
      [.subdivOp [], .texOp [.live 0], .texOp [.live 1], .texOp [.live 2], .texOp [.live 3]]
      [] exLoadedView.root).1 rfl,
   (C9_loaded_counter false 1 none 19 7 20 49 [] [] exLoadedView.root).2.2.2.2.2.2.2.2
     exSimpleParent [] _ rfl⟩

end GeoThree
